import Mathlib

/-!
Verification development for the sendy-calendly-integration repository.

The definitions below are a shallow embedding of the repository's sync
pipeline (src/scripts/list_sendy_brands.js and
src/scripts/sync_shopify_to_sendy.js share the same per-record loop), the
Sendy client's subscribe/bulkSubscribe/status logic
(src/clients/shopifyClient.js, SendyClient section), the dual-layer cache
(src/utils/fileCache.js plus the in-memory node-cache), the pagination
loops of the Shopify and Calendly clients, and the webhook handler of
src/setup.js.

Modelling conventions:
* JS strings are Lean `String`s; character-level operations are defined on
  `List Char` (`String.data`).  `toLowerCase` is modelled by the ASCII
  lowering `Char.toLower` (identical to JS for ASCII input).
* Timestamps (`Date` values obtained from ISO strings) are modelled as
  `Nat` milliseconds; `x || 0` / `x || Date.now()` fallbacks on possibly
  missing values become `Option.getD`.
* Network calls are oracles passed in as function arguments; the sequence
  of issued subscribe calls and of remote status checks is returned
  explicitly so that "no network call happens" is a provable statement.
* Mutable JS objects (the caches) become explicit state threaded through
  the loop bodies.
-/

/-- JS whitespace test restricted to the ASCII range (space, tab, LF, VT,
FF, CR), used by the model of `String.prototype.trim`. -/
def jsSpaceChar (c : Char) : Bool :=
  c.toNat == 32 || c.toNat == 9 || c.toNat == 10 || c.toNat == 11 ||
    c.toNat == 12 || c.toNat == 13

/-- Model of `String.prototype.toLowerCase` (ASCII range, which is all the
repository ever feeds it): lower each character. -/
def jsToLower (s : String) : String :=
  ⟨s.data.map Char.toLower⟩

/-- Character lists of `trim`: drop JS whitespace from both ends. -/
def trimList (l : List Char) : List Char :=
  ((l.dropWhile jsSpaceChar).reverse.dropWhile jsSpaceChar).reverse

/-- Model of `String.prototype.trim`. -/
def jsTrim (s : String) : String :=
  ⟨trimList s.data⟩

/-- Substring test on character lists: `hasSubstr n h` holds iff `n`
occurs contiguously in `h` (the semantics of `String.prototype.includes`). -/
def hasSubstr (n : List Char) : List Char → Bool
  | [] => n.isPrefixOf []
  | c :: rest => n.isPrefixOf (c :: rest) || hasSubstr n rest

/-- `h.includes(n)` for strings. -/
def jsIncludes (h n : String) : Bool :=
  hasSubstr n.data h.data

/-- JS truthiness of an optional string (undefined/null/empty are falsy). -/
def jsTruthyOpt : Option String → Bool
  | none => false
  | some s => s != ""

theorem char_toNat_ofNat_valid (n : Nat) (h : n.isValidChar) :
    (Char.ofNat n).toNat = n := by
  unfold Char.ofNat
  rw [dif_pos h]
  rfl

theorem char_toLower_toLower (c : Char) :
    Char.toLower (Char.toLower c) = Char.toLower c := by
  unfold Char.toLower
  by_cases h : c.toNat ≥ 65 ∧ c.toNat ≤ 90
  · rw [if_pos h]
    have hv : (c.toNat + 32).isValidChar := by
      left
      omega
    have hr : (Char.ofNat (c.toNat + 32)).toNat = c.toNat + 32 :=
      char_toNat_ofNat_valid _ hv
    rw [if_neg]
    rw [hr]
    omega
  · rw [if_neg h, if_neg h]

theorem map_self_of_fixed {α : Type} {f : α → α} :
    ∀ {l : List α}, (∀ x ∈ l, f x = x) → l.map f = l
  | [], _ => rfl
  | x :: xs, h => by
    simp only [List.map_cons]
    rw [h x (by simp), map_self_of_fixed (fun y hy => h y (by simp [hy]))]

theorem mem_trimList {c : Char} {l : List Char} (h : c ∈ trimList l) :
    c ∈ l := by
  unfold trimList at h
  rw [List.mem_reverse] at h
  have h1 := (List.dropWhile_sublist jsSpaceChar).mem h
  rw [List.mem_reverse] at h1
  exact (List.dropWhile_sublist jsSpaceChar).mem h1

theorem jsToLower_idem (s : String) : jsToLower (jsToLower s) = jsToLower s := by
  unfold jsToLower
  simp only [List.map_map]
  congr 1
  apply List.map_congr_left
  intro c _
  exact char_toLower_toLower c

theorem dropWhile_dropWhile_self {α : Type} (p : α → Bool) :
    ∀ l : List α, (l.dropWhile p).dropWhile p = l.dropWhile p
  | [] => rfl
  | x :: xs => by
    by_cases h : p x
    · rw [List.dropWhile_cons_of_pos h]
      exact dropWhile_dropWhile_self p xs
    · rw [List.dropWhile_cons_of_neg (by simpa using h),
        List.dropWhile_cons_of_neg (by simpa using h)]

theorem dropWhile_of_trimList (l : List Char) :
    (trimList l).dropWhile jsSpaceChar = trimList l := by
  unfold trimList
  set m := (l.dropWhile jsSpaceChar) with hm
  have hmfix : m.dropWhile jsSpaceChar = m := by
    rw [hm]
    exact dropWhile_dropWhile_self jsSpaceChar l
  have hsub : (m.reverse.dropWhile jsSpaceChar).reverse <+: m := by
    have h2 := List.reverse_prefix.mpr
      (List.dropWhile_suffix (l := m.reverse) jsSpaceChar)
    rwa [List.reverse_reverse] at h2
  obtain ⟨t, ht⟩ := hsub
  cases hr : (m.reverse.dropWhile jsSpaceChar).reverse with
  | nil => rfl
  | cons a tl =>
    rw [hr] at ht
    have ha : jsSpaceChar a = false := by
      have hfix : m.dropWhile jsSpaceChar = m := hmfix
      rw [← ht] at hfix
      cases hpa : jsSpaceChar a with
      | false => rfl
      | true =>
        rw [List.cons_append, List.dropWhile_cons_of_pos hpa] at hfix
        have hlen := congrArg List.length hfix
        simp only [List.length_cons] at hlen
        have hineq :=
          (List.dropWhile_sublist (l := tl ++ t) jsSpaceChar).length_le
        omega
    rw [List.dropWhile_cons_of_neg (by simp [ha])]

theorem trimList_idem (l : List Char) : trimList (trimList l) = trimList l := by
  have h1 := dropWhile_of_trimList l
  show ((((trimList l).dropWhile jsSpaceChar).reverse).dropWhile
    jsSpaceChar).reverse = trimList l
  rw [h1]
  conv_lhs => rw [trimList]
  rw [List.reverse_reverse,
    dropWhile_dropWhile_self jsSpaceChar ((l.dropWhile jsSpaceChar).reverse)]
  rfl

theorem jsTrim_idem (s : String) : jsTrim (jsTrim s) = jsTrim s := by
  unfold jsTrim
  exact congrArg String.mk (trimList_idem s.data)

theorem jsToLower_jsTrim_jsToLower (s : String) :
    jsToLower (jsTrim (jsToLower s)) = jsTrim (jsToLower s) := by
  unfold jsToLower jsTrim
  congr 1
  apply map_self_of_fixed
  intro c hc
  have := mem_trimList hc
  rw [List.mem_map] at this
  obtain ⟨d, _, hd⟩ := this
  rw [← hd]
  exact char_toLower_toLower d

theorem hasSubstr_infix_iff (n : List Char) :
    ∀ h : List Char, (hasSubstr n h = true ↔ n <:+: h)
  | [] => by
    simp [hasSubstr, List.isPrefixOf_iff_prefix]
  | c :: rest => by
    rw [hasSubstr, List.infix_cons_iff]
    simp only [Bool.or_eq_true, List.isPrefixOf_iff_prefix]
    rw [hasSubstr_infix_iff n rest]

/-- Normalization of the raw Sendy subscription-status response
(`SendyClient.getSubscriberStatus`): lowercase, then map the known literal
responses onto the canonical enum strings, leaving anything else as the
lowercased raw text. -/
def normalizeStatus (raw : String) : String :=
  let status := jsToLower raw
  if status == "subscribed" then "subscribed"
  else if status == "unsubscribed" then "unsubscribed"
  else if status == "unconfirmed" then "unconfirmed"
  else if status == "bounced" then "bounced"
  else if status == "complained" then "complained"
  else if status == "deleted" then "deleted"
  else if status == "not in list" then "not-in-list"
  else status

/-- Result of a remote status check as consumed by the sync loop: the
`success` flag of `getSubscriberStatus` and the `normalized` status
string.  A network failure is `success = false`. -/
structure SendyStatusResult where
  success : Bool
  normalized : String
deriving DecidableEq

/-- Normalized response of `SendyClient.subscribe`. -/
structure SendySubResponse where
  success : Bool
  message : String
  statusCode : Option Nat
deriving DecidableEq

/-- Classification of the Sendy subscribe response text
(`SendyClient.subscribe`, the lines computing `lower`, `successIndicators`,
`errorIndicators`, `hasError` and `isSuccess`).  The JS guard
`text === true` is identically false because `text` is always a string
(`String(data).trim()`), so it is dropped here where `text : String`. -/
def classifySubscribeResponse (text : String) (statusCode : Option Nat) :
    SendySubResponse :=
  let lower := jsToLower text
  let successIndicators : List String :=
    ["true", "already subscribed", "already subscribed.", "1"]
  let errorIndicators : List String :=
    ["invalid email", "some fields are missing", "invalid api key",
     "invalid list id", "bounced", "complained"]
  let hasError := errorIndicators.any (fun e => jsIncludes lower e)
  let isSuccess := !hasError &&
    successIndicators.any (fun si => lower == si || jsIncludes lower si)
  { success := isSuccess, message := text, statusCode := statusCode }

/-- Shape test for the regex `^\d{4}-\d{2}-\d{2}$` used by
`normalizeDate` in both sync scripts. -/
def isDateShape (s : String) : Bool :=
  match s.data with
  | [c0, c1, c2, c3, c4, c5, c6, c7, c8, c9] =>
    c0.isDigit && c1.isDigit && c2.isDigit && c3.isDigit && c4 == '-' &&
      c5.isDigit && c6.isDigit && c7 == '-' && c8.isDigit && c9.isDigit
  | _ => false

/-- `normalizeDate` from the sync scripts: a value already containing `T`
passes through; a bare `YYYY-MM-DD` gets a Zulu day-start or day-end time
appended depending on `kind`; anything else passes through.  The JS
`if (!val) return val` falsy guard corresponds to the empty-string test
(callers always pass a string). -/
def normalizeDate (val : String) (kind : String) : String :=
  if val == "" then val
  else if jsIncludes val "T" then val
  else if isDateShape val then
    (if kind == "until" then val ++ "T23:59:59Z" else val ++ "T00:00:00Z")
  else val

/-- A per-list email map of the persistent cache
(`{ emails: { [email]: timestampISO } }` in fileCache.js), modelled as a
string-keyed partial map. -/
structure EmailMap where
  emails : String → Option String

/-- The persistent cache document `{ lists: { [listId]: EmailMap } }`. -/
structure FileCacheData where
  lists : String → Option EmailMap

/-- A `FileCache` instance: its in-memory `data` plus the `_loaded` flag. -/
structure FileCache where
  data : FileCacheData
  loaded : Bool

/-- What `FileCache.load` finds on disk: whether the file exists, and the
parse outcome (`none` models a read/parse failure; a successfully parsed
cache-shaped document is `some`). -/
structure FileInput where
  fileOnDisk : Bool
  parsed : Option FileCacheData

/-- The empty cache document `{ lists: {} }`. -/
def emptyCacheData : FileCacheData := ⟨fun _ => none⟩

/-- A freshly constructed `FileCache` (constructor of fileCache.js):
empty data, not yet loaded. -/
def freshFileCache : FileCache := ⟨emptyCacheData, false⟩

/-- `FileCache.load`: a no-op when already loaded; otherwise replace
`data` by the parsed file when it exists (falling back to `{lists:{}}`
when reading/parsing throws), and mark the cache loaded. -/
def FileCache.load (fc : FileCache) (input : FileInput) : FileCache :=
  if fc.loaded then fc
  else
    { data :=
        if input.fileOnDisk then
          match input.parsed with
          | some d => d
          | none => emptyCacheData
        else fc.data,
      loaded := true }

/-- `FileCache.ensureList` on the data document: return the per-list map,
creating an empty one (and the updated document) when absent. -/
def ensureListData (d : FileCacheData) (listId : String) :
    FileCacheData × EmailMap :=
  match d.lists listId with
  | some m => (d, m)
  | none =>
    (⟨fun k => if k = listId then some ⟨fun _ => none⟩ else d.lists k⟩,
     ⟨fun _ => none⟩)

/-- `FileCache.hasEmail`: load (no-op when loaded), ensure the list
exists, then test truthiness of the stored timestamp under the lowercased
email key. -/
def FileCache.hasEmail (fc : FileCache) (input : FileInput)
    (listId email : String) : FileCache × Bool :=
  let fc1 := fc.load input
  let p := ensureListData fc1.data listId
  ({ fc1 with data := p.1 }, jsTruthyOpt (p.2.emails (jsToLower email)))

/-- `FileCache.setEmail`: load, ensure the list, store `when` under the
lowercased email key. -/
def FileCache.setEmail (fc : FileCache) (input : FileInput)
    (listId email when : String) : FileCache :=
  let fc1 := fc.load input
  let p := ensureListData fc1.data listId
  let m2 : EmailMap :=
    ⟨fun k => if k = jsToLower email then some when else p.2.emails k⟩
  { fc1 with data := ⟨fun k => if k = listId then some m2 else p.1.lists k⟩ }

/-- Truthiness of the persistent entry for `(listId, email)` in a cache
document (what `hasEmail` reports, without the `ensureList` bookkeeping). -/
def dataHas (d : FileCacheData) (listId email : String) : Bool :=
  match d.lists listId with
  | none => false
  | some m => jsTruthyOpt (m.emails (jsToLower email))

/-- In-memory cache key `synced:<listId>:<email>` used by both sync
scripts. -/
def memKey (listId email : String) : String :=
  "synced:" ++ listId ++ ":" ++ email

/-- Set a key in the in-memory cache (node-cache `cache.set(key, true)`;
TTL expiry is not modelled — entries live for the run). -/
def memSet (mem : String → Bool) (key : String) : String → Bool :=
  fun k => if k = key then true else mem k

/-- Candidate record as produced by the dedup step of either sync script
(`created_at` in epoch milliseconds; `none` models a missing/null value). -/
structure Row where
  email : String
  name : String
  created_at : Option Nat
deriving DecidableEq

/-- Entry of the `toSubscribe` queue (the fields `bulkSubscribe` reads). -/
structure QueueItem where
  email : String
  name : String
deriving DecidableEq

/-- Skip counters accumulated by the per-record loop. -/
structure Counters where
  cached : Nat
  alreadySubscribed : Nat
  unsubscribed : Nat
  bouncedOrComplained : Nat
  notInList : Nat
  unknownStatus : Nat
deriving DecidableEq

/-- The run options the pipeline itself consumes (wired from `CliOpts`
by the scripts; `batchSize` is a `Nat` here — a NaN `--batch-size` is out
of scope of the pipeline model). -/
structure SyncOpts where
  dryRun : Bool
  noCache : Bool
  clearCache : Bool
  noPersistentCache : Bool
  refreshPersistent : Bool
  listId : String
  batchSize : Nat

/-- Mutable state of the per-record loop: in-memory cache, file cache,
counters, the `toSubscribe` queue, and (for specification purposes) the
list of emails for which a remote status check was issued. -/
structure SyncState where
  mem : String → Bool
  fc : FileCache
  counters : Counters
  toSubscribe : List QueueItem
  statusChecked : List String

/-- One iteration of the per-record loop shared by
list_sendy_brands.js (lines 134-182) and sync_shopify_to_sendy.js
(lines 150-202).  `statusOracle` models `sendy.getSubscriberStatus`:
`.ok raw` is a successful HTTP exchange whose trimmed response text is
`raw` (the client then normalizes it), `.error` is a thrown request. -/
def processRecord (opts : SyncOpts) (input : FileInput)
    (statusOracle : String → Except Unit String) (nowIso : String)
    (st : SyncState) (r : Row) : SyncState :=
  let cacheKey := memKey opts.listId r.email
  let lowerEmail := jsToLower r.email
  let hp := if opts.noPersistentCache then (st.fc, false)
            else st.fc.hasEmail input opts.listId lowerEmail
  let st := { st with fc := hp.1 }
  if !opts.noCache && st.mem cacheKey then
    { st with counters := { st.counters with cached := st.counters.cached + 1 } }
  else if hp.2 then
    { st with counters :=
        { st.counters with alreadySubscribed := st.counters.alreadySubscribed + 1 } }
  else
    let status := match statusOracle r.email with
      | Except.error _ => SendyStatusResult.mk false ""
      | Except.ok raw => SendyStatusResult.mk true (normalizeStatus raw)
    let st := { st with statusChecked := st.statusChecked ++ [r.email] }
    if status.success && status.normalized == "subscribed" then
      { st with
        mem := if opts.noCache then st.mem else memSet st.mem cacheKey,
        fc := if opts.noPersistentCache then st.fc
              else st.fc.setEmail input opts.listId lowerEmail nowIso,
        counters := { st.counters with
          alreadySubscribed := st.counters.alreadySubscribed + 1 } }
    else if status.success && status.normalized == "unsubscribed" then
      { st with
        mem := if opts.noCache then st.mem else memSet st.mem cacheKey,
        counters := { st.counters with
          unsubscribed := st.counters.unsubscribed + 1 } }
    else if status.success &&
        (status.normalized == "bounced" || status.normalized == "complained") then
      { st with
        mem := if opts.noCache then st.mem else memSet st.mem cacheKey,
        counters := { st.counters with
          bouncedOrComplained := st.counters.bouncedOrComplained + 1 } }
    else if status.success && status.normalized == "not-in-list" then
      { st with
        counters := { st.counters with notInList := st.counters.notInList + 1 },
        toSubscribe := st.toSubscribe ++ [⟨r.email, r.name⟩] }
    else if status.success then
      { st with
        counters := { st.counters with
          unknownStatus := st.counters.unknownStatus + 1 },
        toSubscribe := st.toSubscribe ++ [⟨r.email, r.name⟩] }
    else
      { st with toSubscribe := st.toSubscribe ++ [⟨r.email, r.name⟩] }

/-- Entry of the `results` array produced by `bulkSubscribe`.  Dry-run
entries carry `dryRunFlag = true` and no status code, mirroring
`{ email, success:false, dryRun:true, message:'dry-run' }`. -/
structure SubResult where
  email : String
  success : Bool
  message : String
  statusCode : Option Nat
  dryRunFlag : Bool
deriving DecidableEq

/-- One item of the inner batch loop of `SendyClient.bulkSubscribe`:
either the dry-run sentinel result (no network call), or the result of a
`subscribe` call through `subOracle` (which models the network exchange
plus `classifySubscribeResponse`).  The second component lists the
subscribe calls issued. -/
def subscribeOne (dryRun : Bool) (subOracle : String → String → SendySubResponse)
    (it : QueueItem) : SubResult × List String :=
  if dryRun then
    ({ email := it.email, success := false, message := "dry-run",
       statusCode := none, dryRunFlag := true }, [])
  else
    let r := subOracle it.email it.name
    ({ email := it.email, success := r.success, message := r.message,
       statusCode := r.statusCode, dryRunFlag := false }, [it.email])

/-- The inner `for (const it of batch)` loop of `bulkSubscribe`. -/
def processBatch (dryRun : Bool) (subOracle : String → String → SendySubResponse) :
    List QueueItem → List SubResult × List String
  | [] => ([], [])
  | it :: rest =>
    let h := subscribeOne dryRun subOracle it
    let t := processBatch dryRun subOracle rest
    (h.1 :: t.1, h.2 ++ t.2)

/-- The outer `for (let i = 0; i < items.length; i += batchSize)` loop of
`bulkSubscribe`, fuelled by the initial item count (enough iterations
whenever `batchSize ≥ 1`; the JS loop does not terminate for
`batchSize = 0`, which the fuel makes explicit). -/
def bulkSubscribeAux (dryRun : Bool)
    (subOracle : String → String → SendySubResponse) (bs : Nat) :
    Nat → List QueueItem → List SubResult × List String
  | _, [] => ([], [])
  | 0, _ :: _ => ([], [])
  | fuel + 1, it :: rest =>
    let batch := (it :: rest).take bs
    let h := processBatch dryRun subOracle batch
    let t := bulkSubscribeAux dryRun subOracle bs fuel ((it :: rest).drop bs)
    (h.1 ++ t.1, h.2 ++ t.2)

/-- `SendyClient.bulkSubscribe` (results plus the list of issued
subscribe calls; the throttle delay has no observable effect here). -/
def bulkSubscribe (subOracle : String → String → SendySubResponse)
    (items : List QueueItem) (dryRun : Bool) (bs : Nat) :
    List SubResult × List String :=
  bulkSubscribeAux dryRun subOracle bs items.length items

/-- The `// Cache successes` loop both scripts run over the
`bulkSubscribe` results. -/
def cacheSuccesses (opts : SyncOpts) (input : FileInput) (nowIso : String)
    (st : SyncState) (results : List SubResult) : SyncState :=
  results.foldl
    (fun st res =>
      if res.success then
        { st with
          mem := if opts.noCache then st.mem
                 else memSet st.mem (memKey opts.listId res.email),
          fc := if opts.noPersistentCache then st.fc
                else st.fc.setEmail input opts.listId (jsToLower res.email) nowIso }
      else st)
    st

/-- A full sync run over already-fetched, already-deduplicated rows:
candidate rows, the status/subscribe oracles, and the ISO timestamp the
run stores into the persistent cache (`new Date().toISOString()`). -/
structure RunConfig where
  opts : SyncOpts
  rows : List Row
  statusOracle : String → Except Unit String
  subOracle : String → String → SendySubResponse
  nowIso : String

/-- Observable outcome of a run: final state, `results`, the issued
subscribe calls, `totals.subscribed` of the report, and the cache
document written by the final `fileCache.save()` (none when the
persistent cache is disabled). -/
structure RunOutcome where
  finalState : SyncState
  results : List SubResult
  calls : List String
  subscribedTotal : Nat
  savedData : Option FileCacheData

/-- One sync run (the body of `run()` after the rows are built), shared
verbatim between the two sync scripts: persistent-cache setup
(load / `--refresh-persistent` clear), `--clear-cache` flush, the
per-record loop, `bulkSubscribe`, the success-caching loop, the report
totals, and the final save. -/
def runSetupFc (opts : SyncOpts) (input : FileInput) : FileCache :=
  if opts.noPersistentCache then freshFileCache
  else
    let fcL := freshFileCache.load input
    if opts.refreshPersistent then { fcL with data := emptyCacheData }
    else fcL

/-- The loop state right before the per-record loop: persistent cache set
up (load / `--refresh-persistent` clear) and the `--clear-cache` flush
applied to the in-memory cache. -/
def runInitState (cfg : RunConfig) (mem0 : String → Bool)
    (input : FileInput) : SyncState :=
  ⟨if cfg.opts.clearCache then (fun _ => false) else mem0,
   runSetupFc cfg.opts input, ⟨0, 0, 0, 0, 0, 0⟩, [], []⟩

/-- The state after the per-record loop has consumed all rows. -/
def runRows (cfg : RunConfig) (mem0 : String → Bool)
    (input : FileInput) : SyncState :=
  cfg.rows.foldl (processRecord cfg.opts input cfg.statusOracle cfg.nowIso)
    (runInitState cfg mem0 input)

def runSync (cfg : RunConfig) (mem0 : String → Bool) (input : FileInput) :
    RunOutcome :=
  let st1 := runRows cfg mem0 input
  let rc := bulkSubscribe cfg.subOracle st1.toSubscribe cfg.opts.dryRun
    cfg.opts.batchSize
  let st2 := cacheSuccesses cfg.opts input cfg.nowIso st1 rc.1
  { finalState := st2, results := rc.1, calls := rc.2,
    subscribedTotal := (rc.1.filter (fun r => r.success)).length,
    savedData := if cfg.opts.noPersistentCache then none else some st2.fc.data }

/-- A sequence of runs sharing the persistent cache file.  Each run is a
fresh process (fresh in-memory cache state is supplied per run; a fresh
`FileCache` object is constructed inside `runSync`); the file written by
one run is what the next run loads.  Returns every subscribe call issued
across the whole sequence. -/
def runSeq : List (RunConfig × (String → Bool)) → FileInput → List String
  | [], _ => []
  | (cfg, mem0) :: rest, input =>
    let out := runSync cfg mem0 input
    let input2 : FileInput :=
      match out.savedData with
      | some d => ⟨true, some d⟩
      | none => input
    out.calls ++ runSeq rest input2

/-- A Calendly invitee as returned by `listInviteesAcrossEvents` (the
fields the dedup step of list_sendy_brands.js reads; `none` models a
missing/null field). -/
structure Invitee where
  email : Option String
  name : Option String
  created_at : Option Nat
deriving DecidableEq

/-- JS `x || fallback-to-none` on an optional string: empty strings are
falsy. -/
def truthyStr : Option String → Option String
  | some s => if s = "" then none else some s
  | none => none

/-- `Map.prototype.set` on an insertion-ordered association list:
overwrite in place when the key exists, append otherwise. -/
def mapSet {β : Type} (m : List (String × β)) (k : String) (v : β) :
    List (String × β) :=
  if (List.lookup k m).isSome then
    m.map (fun p => if p.1 = k then (k, v) else p)
  else m ++ [(k, v)]

/-- One iteration of the dedup loop of list_sendy_brands.js (lines
107-116): skip falsy emails, key by `email.toLowerCase().trim()`, keep
the entry with the strictly greater `created_at` (candidate falls back to
`Date.now()`, i.e. `now`; the stored one falls back to `0`).  The stored
row's unused `event` field is omitted. -/
def dedupStep (now : Nat) (m : List (String × Row)) (inv : Invitee) :
    List (String × Row) :=
  match inv.email with
  | none => m
  | some e0 =>
    if e0 = "" then m
    else
      let email := jsTrim (jsToLower e0)
      let cur := List.lookup email m
      let created := inv.created_at.getD now
      if (match cur with
          | none => true
          | some c => c.created_at.getD 0 < created) then
        mapSet m email ⟨email, inv.name.getD "", inv.created_at⟩
      else m

/-- Ascending order on rows by `created_at || 0`, the comparator of the
final `.sort` of the dedup step. -/
def rowOrder (a b : Row) : Prop :=
  a.created_at.getD 0 ≤ b.created_at.getD 0

instance : DecidableRel rowOrder :=
  fun a b => Nat.decLe (a.created_at.getD 0) (b.created_at.getD 0)

/-- The full dedup step of list_sendy_brands.js: fold the invitees into
the insertion-ordered map, then sort the values ascending by creation
time (a stable sort, as in V8). -/
def dedupeInvitees (now : Nat) (invitees : List Invitee) : List Row :=
  List.insertionSort rowOrder ((invitees.foldl (dedupStep now) []).map (·.2))

/-- `order.customer` / `order.billing_address` sub-objects (the fields
`extractEmailsFromOrders` reads). -/
structure OrderParty where
  email : Option String
  first_name : Option String
  last_name : Option String
deriving DecidableEq

/-- A Shopify order as consumed by `extractEmailsFromOrders`. -/
structure ShopOrder where
  email : Option String
  customer : Option OrderParty
  billing_address : Option OrderParty
  created_at : Option Nat
  id : Nat
  order_number : Option String
  name : Option String
  total_price : Option String
deriving DecidableEq

/-- Output record of `extractEmailsFromOrders` (the `raw_order` back
pointer is omitted). -/
structure CustomerRow where
  email : String
  name : String
  created_at : Option Nat
  order_id : Nat
  order_number : Option String
  order_value : String
deriving DecidableEq

/-- The email fallback chain of `extractEmailsFromOrders`:
`order.email`, else `order.customer.email`, else
`order.billing_address.email`, each lowercased and trimmed. -/
def orderEmail (o : ShopOrder) : Option String :=
  match truthyStr o.email with
  | some e => some (jsTrim (jsToLower e))
  | none =>
    match o.customer.bind (fun c => truthyStr c.email) with
    | some e => some (jsTrim (jsToLower e))
    | none =>
      match o.billing_address.bind (fun b => truthyStr b.email) with
      | some e => some (jsTrim (jsToLower e))
      | none => none

/-- `[first_name, last_name].filter(Boolean).join(' ')`. -/
def joinName (fn ln : Option String) : String :=
  match truthyStr fn, truthyStr ln with
  | some f, some l => f ++ " " ++ l
  | some f, none => f
  | none, some l => l
  | none, none => ""

/-- The name extraction of `extractEmailsFromOrders`. -/
def orderName (o : ShopOrder) : String :=
  match o.customer with
  | some c => joinName c.first_name c.last_name
  | none =>
    match o.billing_address with
    | some b => joinName b.first_name b.last_name
    | none => ""

/-- `email.split('@')[0]`: the text before the first `@`. -/
def emailLocal (email : String) : String :=
  ⟨email.data.takeWhile (fun c => c != '@')⟩

/-- One iteration of the order loop of `extractEmailsFromOrders`. -/
def extractStep (m : List (String × CustomerRow)) (o : ShopOrder) :
    List (String × CustomerRow) :=
  match orderEmail o with
  | none => m
  | some email =>
    let name := orderName o
    let orderDate := o.created_at.getD 0
    if (match List.lookup email m with
        | none => true
        | some ex => ex.created_at.getD 0 < orderDate) then
      mapSet m email
        ⟨email,
         (if jsTrim name = "" then emailLocal email else jsTrim name),
         o.created_at, o.id,
         (match truthyStr o.order_number with
          | some n => some n
          | none => o.name),
         (truthyStr o.total_price).getD "0.00"⟩
    else m

/-- Ascending order on customer rows by `created_at || 0`. -/
def custOrder (a b : CustomerRow) : Prop :=
  a.created_at.getD 0 ≤ b.created_at.getD 0

instance : DecidableRel custOrder :=
  fun a b => Nat.decLe (a.created_at.getD 0) (b.created_at.getD 0)

/-- `ShopifyClient.extractEmailsFromOrders`. -/
def extractEmailsFromOrders (orders : List ShopOrder) : List CustomerRow :=
  List.insertionSort custOrder ((orders.foldl extractStep []).map (·.2))

/-- The `opts` object built by the CLI argument loop shared by the two
sync scripts (`until` is a Lean keyword, hence `untilOpt`).  `batchSize`
and `throttleMs` hold `parseInt` results, with `none` modelling NaN. -/
structure CliOpts where
  dryRun : Bool := false
  batchSize : Option Int := some 20
  throttleMs : Option Int := some 250
  noCache : Bool := false
  clearCache : Bool := false
  noPersistentCache : Bool := false
  cacheFile : Option String := none
  refreshPersistent : Bool := false
  since : Option String := none
  untilOpt : Option String := none
  listId : Option String := none
deriving DecidableEq

/-- Accumulate the value of a digit string. -/
def digitsVal (l : List Char) : Int :=
  l.foldl (fun a c => a * 10 + (Int.ofNat c.toNat - 48)) 0

/-- Model of JS `parseInt` on the strings the scripts pass it: skip
leading whitespace, optional sign, then a decimal digit run; `none` is
NaN. -/
def jsParseInt (s : String) : Option Int :=
  let l := s.data.dropWhile jsSpaceChar
  let sgn : Int × List Char :=
    match l with
    | '-' :: r => (-1, r)
    | '+' :: r => (1, r)
    | _ => (1, l)
  let ds := sgn.2.takeWhile Char.isDigit
  if ds.isEmpty then none else some (sgn.1 * digitsVal ds)

/-- `String.prototype.startsWith`, structurally on the character lists. -/
def jsStartsWith (a pre : String) : Bool :=
  pre.data.isPrefixOf a.data

/-- `a.split('=')[1]`: the text between the first and second `=`
(empty when there is no `=`; the callers only use it on arguments that
start with `--flag=`). -/
def argVal (a : String) : String :=
  ⟨((a.data.dropWhile (fun c => c != '=')).drop 1).takeWhile
    (fun c => c != '=')⟩

/-- One iteration of the CLI loop of the sync scripts (the `=` forms,
then the space-separated forms whose `continue` consumes the following
argument, then the bare flags).  Returns the updated options and whether
`args[i+1]` was consumed. -/
def parseStep (o0 : CliOpts) (a : String) (next : Option String) :
    CliOpts × Bool :=
  let o := o0
  let o := if jsStartsWith a "--since=" then { o with since := some (argVal a) } else o
  let o := if jsStartsWith a "--until=" then { o with untilOpt := some (argVal a) } else o
  let o := if jsStartsWith a "--from=" then
    { o with since := some (normalizeDate (argVal a) "since") } else o
  let o := if jsStartsWith a "--to=" then
    { o with untilOpt := some (normalizeDate (argVal a) "until") } else o
  let o := if jsStartsWith a "--list-id=" then { o with listId := some (argVal a) } else o
  let o := if jsStartsWith a "--batch-size=" then
    { o with batchSize := jsParseInt (argVal a) } else o
  let o := if jsStartsWith a "--throttle-ms=" then
    { o with throttleMs := jsParseInt (argVal a) } else o
  let o := if jsStartsWith a "--cache-file=" then
    { o with cacheFile := some (argVal a) } else o
  let nextTruthy := jsTruthyOpt next
  if a == "--since" && nextTruthy then ({ o with since := next }, true)
  else if a == "--until" && nextTruthy then ({ o with untilOpt := next }, true)
  else if a == "--from" && nextTruthy then
    ({ o with since := some (normalizeDate (next.getD "") "since") }, true)
  else if a == "--to" && nextTruthy then
    ({ o with untilOpt := some (normalizeDate (next.getD "") "until") }, true)
  else if a == "--list-id" && nextTruthy then ({ o with listId := next }, true)
  else if a == "--batch-size" && nextTruthy then
    ({ o with batchSize := jsParseInt (next.getD "") }, true)
  else if a == "--throttle-ms" && nextTruthy then
    ({ o with throttleMs := jsParseInt (next.getD "") }, true)
  else if a == "--cache-file" && nextTruthy then ({ o with cacheFile := next }, true)
  else
    let o := if a == "--dry-run" then { o with dryRun := true } else o
    let o := if a == "--no-cache" then { o with noCache := true } else o
    let o := if a == "--clear-cache" then { o with clearCache := true } else o
    let o := if a == "--no-persistent-cache" then
      { o with noPersistentCache := true } else o
    let o := if a == "--refresh-persistent" then
      { o with refreshPersistent := true } else o
    (o, false)

/-- The whole CLI loop (`for (let i = 0; i < args.length; i++)`).  The
`skip` flag carries the `i++; continue` of a space-separated form over to
the next iteration (that argument was consumed as a value). -/
def parseArgsGo (o : CliOpts) (skip : Bool) : List String → CliOpts
  | [] => o
  | a :: rest =>
    if skip then parseArgsGo o false rest
    else
      match parseStep o a rest.head? with
      | (o2, consumed) => parseArgsGo o2 consumed rest

/-- The CLI argument loop from the start of the argument vector. -/
def parseArgs (o : CliOpts) (args : List String) : CliOpts :=
  parseArgsGo o false args

/-- One page of a Shopify listing response: the record batch and the
result of `_parseNextPageUrl` on the `Link` header. -/
structure ShopifyPage where
  orders : List ShopOrder
  nextPageUrl : Option String

/-- The `do … while (nextPageUrl)` pagination loop of
`ShopifyClient.listOrders` (identical control flow in `listCustomers`):
`oracle n` is the n-th HTTP response.  Returns the accumulated records,
the number of pages fetched (`attempts`), and whether the
`maxAttempts = 50` cap fired (the branch that logs
"Reached maximum pagination attempts" and breaks instead of failing). -/
def listOrdersGo (oracle : Nat → ShopifyPage) (attempts : Nat)
    (acc : List ShopOrder) : List ShopOrder × Nat × Bool :=
  let page := oracle attempts
  let acc2 := acc ++ page.orders
  let attempts2 := attempts + 1
  if _h : 50 ≤ attempts2 then (acc2, attempts2, true)
  else
    match page.nextPageUrl with
    | none => (acc2, attempts2, false)
    | some _ => listOrdersGo oracle attempts2 acc2
termination_by 50 - attempts
decreasing_by
  omega

/-- `ShopifyClient.listOrders` pagination, from page 0. -/
def listOrders (oracle : Nat → ShopifyPage) : List ShopOrder × Nat × Bool :=
  listOrdersGo oracle 0 []

/-- One page of a Calendly `/scheduled_events` response: the event batch
and the outcome of `_getNextPageInfo` (both fields already trimmed, with
empty strings collapsed to `none`, as `_getNextPageInfo` does). -/
structure CalendlyPage where
  collection : List String
  nextPage : Option String
  nextPageToken : Option String

/-- The `do … while (nextPageUrl || pageToken)` pagination loop of
`CalendlyClient.listScheduledEvents` for one scope: follow `next_page`
URLs or `next_page_token`s, breaking when both are absent, when the token
is the literal string `"null"`, or when a token repeats (`seenTokens`).
There is no page-count cap, so the loop is fuelled: a `false` third
component means the fuel ran out with the loop still going. -/
def listScheduledEventsGo (oracle : Nat → CalendlyPage) :
    Nat → Nat → List String → List String → Nat →
    List String × Nat × Bool
  | 0, _, events, _, pageCount => (events, pageCount, false)
  | fuel + 1, n, events, seen, pageCount =>
    let page := oracle n
    let events2 := events ++ page.collection
    let pageCount2 := pageCount + 1
    let nextPageUrl := page.nextPage
    let pageToken := if nextPageUrl.isSome then none else page.nextPageToken
    if nextPageUrl = none ∧ pageToken = none then (events2, pageCount2, true)
    else if pageToken = some "null" then (events2, pageCount2, true)
    else
      match pageToken with
      | some t =>
        if t ∈ seen then (events2, pageCount2, true)
        else listScheduledEventsGo oracle fuel (n + 1) events2 (seen ++ [t])
          pageCount2
      | none => listScheduledEventsGo oracle fuel (n + 1) events2 seen pageCount2

/-- `CalendlyClient.listScheduledEvents` pagination for one scope, given
`fuel` loop iterations to run. -/
def listScheduledEvents (oracle : Nat → CalendlyPage) (fuel : Nat) :
    List String × Nat × Bool :=
  listScheduledEventsGo oracle fuel 0 [] [] 0

/-- HTTP responses `handleCalendlyWebhook` can produce. -/
inductive WebhookResp where
  | received200 : WebhookResp
  | invalid401 : WebhookResp
  | error500 : WebhookResp
deriving DecidableEq

/-- The parts of an incoming webhook request the handler reads:
the `calendly-webhook-signature` header, `JSON.stringify(req.body)`, and
`req.body.event`. -/
structure WebhookRequest where
  signature : Option String
  rawBody : String
  event : String

/-- `verifyWebhookSignature` of setup.js.  `secret` models
`process.env.CALENDLY_WEBHOOK_SECRET` (`none` = unset or empty, the falsy
cases which skip verification and return `true`).  `hmacBase64` is the
base64 HMAC-SHA256 oracle.  `crypto.timingSafeEqual` throws
(here: `.error ()`) when the two buffers differ in byte length, and
otherwise compares them, which for UTF-8 buffers is string equality. -/
def verifyWebhookSignature (secret : Option String)
    (hmacBase64 : String → String → String) (payload sig : String) :
    Except Unit Bool :=
  match secret with
  | none => Except.ok true
  | some sec =>
    let expected := hmacBase64 sec payload
    if sig.utf8ByteSize ≠ expected.utf8ByteSize then Except.error ()
    else Except.ok (sig = expected)

/-- `handleCalendlyWebhook` of setup.js.  Returns the HTTP response,
whether `processNewInvitee` ran (it catches its own errors, so it never
throws into the handler), and whether signature verification was invoked.
A thrown verification (`.error`) is caught by the handler's `catch`,
producing the 500 response. -/
def handleCalendlyWebhook (secret : Option String)
    (hmacBase64 : String → String → String) (req : WebhookRequest) :
    WebhookResp × Bool × Bool :=
  if jsTruthyOpt req.signature then
    match verifyWebhookSignature secret hmacBase64 req.rawBody
        (req.signature.getD "") with
    | Except.error _ => (WebhookResp.error500, false, true)
    | Except.ok false => (WebhookResp.invalid401, false, true)
    | Except.ok true =>
      if req.event = "invitee.created" then (WebhookResp.received200, true, true)
      else (WebhookResp.received200, false, true)
  else
    if req.event = "invitee.created" then (WebhookResp.received200, true, false)
    else (WebhookResp.received200, false, false)

theorem load_of_loaded (fc : FileCache) (input : FileInput)
    (h : fc.loaded = true) : fc.load input = fc := by
  unfold FileCache.load
  rw [if_pos h]

theorem ensure_dataHas (d : FileCacheData) (l0 l e : String) :
    dataHas (ensureListData d l0).1 l e = dataHas d l e := by
  unfold ensureListData dataHas
  cases h0 : d.lists l0 with
  | some m => rfl
  | none =>
    simp only
    by_cases hl : l = l0
    · subst hl
      rw [h0, if_pos rfl]
      rfl
    · rw [if_neg hl]

theorem hasEmail_snd (fc : FileCache) (input : FileInput) (l em : String)
    (h : fc.loaded = true) :
    (fc.hasEmail input l em).2 = dataHas fc.data l em := by
  unfold FileCache.hasEmail
  rw [load_of_loaded fc input h]
  unfold ensureListData dataHas
  cases h0 : fc.data.lists l with
  | some m => simp only [h0]
  | none =>
    simp only [h0]
    rfl

theorem hasEmail_fst_loaded (fc : FileCache) (input : FileInput) (l em : String)
    (h : fc.loaded = true) :
    (fc.hasEmail input l em).1 =
      { fc with data := (ensureListData fc.data l).1 } := by
  unfold FileCache.hasEmail
  rw [load_of_loaded fc input h]

theorem hasEmail_fst_loaded_flag (fc : FileCache) (input : FileInput)
    (l em : String) (h : fc.loaded = true) :
    (fc.hasEmail input l em).1.loaded = true := by
  rw [hasEmail_fst_loaded fc input l em h]
  exact h

theorem hasEmail_fst_dataHas (fc : FileCache) (input : FileInput)
    (l0 em0 l e : String) (h : fc.loaded = true) :
    dataHas (fc.hasEmail input l0 em0).1.data l e = dataHas fc.data l e := by
  rw [hasEmail_fst_loaded fc input l0 em0 h]
  exact ensure_dataHas fc.data l0 l e

theorem dataHas_lower (d : FileCacheData) (l e : String) :
    dataHas d l (jsToLower e) = dataHas d l e := by
  unfold dataHas
  rw [jsToLower_idem]

theorem setEmail_data_lists (fc : FileCache) (input : FileInput)
    (l0 em0 ts : String) (hld : fc.loaded = true) :
    (fc.setEmail input l0 em0 ts).data.lists = fun k =>
      if k = l0 then
        some ⟨fun k2 => if k2 = jsToLower em0 then some ts
              else (ensureListData fc.data l0).2.emails k2⟩
      else (ensureListData fc.data l0).1.lists k := by
  unfold FileCache.setEmail
  rw [load_of_loaded fc input hld]

theorem setEmail_dataHas (fc : FileCache) (input : FileInput)
    (l0 em0 ts : String) (hld : fc.loaded = true) (hts : ts ≠ "") :
    ∀ l e, dataHas (fc.setEmail input l0 em0 ts).data l e =
      (if l = l0 ∧ jsToLower e = jsToLower em0 then true
       else dataHas fc.data l e) := by
  intro l e
  unfold dataHas
  rw [setEmail_data_lists fc input l0 em0 ts hld]
  simp only
  by_cases hl : l = l0
  · subst hl
    rw [if_pos rfl]
    by_cases he : jsToLower e = jsToLower em0
    · rw [if_pos ⟨rfl, he⟩]
      simp only [he, if_pos rfl]
      unfold jsTruthyOpt
      simpa using hts
    · rw [if_neg (by simp [he])]
      simp only [if_neg he]
      unfold ensureListData
      cases h0 : fc.data.lists l with
      | some m => simp only [h0]
      | none => simp only [h0]; rfl
  · rw [if_neg hl, if_neg (by simp [hl])]
    have hx := ensure_dataHas fc.data l0 l e
    unfold dataHas at hx
    exact hx

theorem setEmail_loaded (fc : FileCache) (input : FileInput)
    (l0 em0 ts : String) (hld : fc.loaded = true) :
    (fc.setEmail input l0 em0 ts).loaded = true := by
  unfold FileCache.setEmail
  rw [load_of_loaded fc input hld]
  exact hld

/-- C8: if the persistent cache file exists but fails to parse,
`FileCache.load` does not fail: the cache starts from the empty state
`{ lists: {} }`, is marked loaded, and subsequent `hasEmail`/`setEmail`
behave exactly as on an empty cache (the resulting object *is* the loaded
empty cache). -/
theorem c8_parse_failure_starts_empty (fc : FileCache) (input : FileInput)
    (h1 : fc.loaded = false) (h2 : input.fileOnDisk = true)
    (h3 : input.parsed = none) :
    fc.load input = FileCache.mk emptyCacheData true ∧
    (∀ l e, ((fc.load input).hasEmail input l e).2 = false) ∧
    (∀ l e ts l2 e2, ts ≠ "" →
      (dataHas ((fc.load input).setEmail input l e ts).data l2 e2 = true ↔
        (l2 = l ∧ jsToLower e2 = jsToLower e))) := by
  have hload : fc.load input = FileCache.mk emptyCacheData true := by
    unfold FileCache.load
    rw [if_neg (by simp [h1]), h2, h3]
    rfl
  refine ⟨hload, ?_, ?_⟩
  · intro l e
    rw [hload, hasEmail_snd _ _ _ _ rfl]
    rfl
  · intro l e ts l2 e2 hts
    rw [hload, setEmail_dataHas _ _ _ _ _ rfl hts]
    by_cases hc : l2 = l ∧ jsToLower e2 = jsToLower e
    · rw [if_pos hc]
      simp [hc]
    · rw [if_neg hc]
      have : dataHas emptyCacheData l2 e2 = false := rfl
      rw [this]
      simp [hc]

/-- Witness for C8 at a concrete non-empty unloaded cache and a concrete
failing parse. -/
theorem c8_parse_failure_starts_empty_witness :
    (FileCache.mk ⟨fun _ => some ⟨fun _ => some "2024-01-01"⟩⟩ false).load
        ⟨true, none⟩ = FileCache.mk emptyCacheData true ∧
    (∀ l e, (((FileCache.mk ⟨fun _ => some ⟨fun _ => some "2024-01-01"⟩⟩
        false).load ⟨true, none⟩).hasEmail ⟨true, none⟩ l e).2 = false) ∧
    (∀ l e ts l2 e2, ts ≠ "" →
      (dataHas (((FileCache.mk ⟨fun _ => some ⟨fun _ => some "2024-01-01"⟩⟩
          false).load ⟨true, none⟩).setEmail ⟨true, none⟩ l e ts).data l2 e2 =
          true ↔ (l2 = l ∧ jsToLower e2 = jsToLower e))) :=
  c8_parse_failure_starts_empty _ _ rfl rfl rfl

theorem jsIncludes_refl (s : String) : jsIncludes s s = true := by
  unfold jsIncludes
  rw [hasSubstr_infix_iff]

theorem jsIncludes_of_eq {h si : String} (he : h = si) :
    jsIncludes h si = true := by
  rw [he]
  exact jsIncludes_refl si

theorem includes_already_subscribed_of_dot {s : String}
    (h : jsIncludes s "already subscribed." = true) :
    jsIncludes s "already subscribed" = true := by
  unfold jsIncludes at h ⊢
  rw [hasSubstr_infix_iff] at h ⊢
  exact List.IsInfix.trans ⟨[], ['.'], rfl⟩ h

/-- C5: the subscribe call classifies the response text as success iff the
lowercased text contains none of the known error-indicator phrases and
contains (or equals) one of the truthy indicators `true`,
`already subscribed`, or `1`; anything else is failure; and the raw
response text is carried verbatim as the result message. -/
theorem c5_subscribe_classification (text : String) (code : Option Nat) :
    ((classifySubscribeResponse text code).success = true ↔
      ((∀ e ∈ (["invalid email", "some fields are missing", "invalid api key",
          "invalid list id", "bounced", "complained"] : List String),
          jsIncludes (jsToLower text) e = false) ∧
        (∃ si ∈ (["true", "already subscribed", "1"] : List String),
          jsToLower text = si ∨ jsIncludes (jsToLower text) si = true))) ∧
    (classifySubscribeResponse text code).message = text := by
  refine ⟨?_, rfl⟩
  show (!(["invalid email", "some fields are missing", "invalid api key",
      "invalid list id", "bounced", "complained"] : List String).any
        (fun e => jsIncludes (jsToLower text) e) &&
      (["true", "already subscribed", "already subscribed.", "1"] :
        List String).any
        (fun si => jsToLower text == si ||
          jsIncludes (jsToLower text) si)) = true ↔ _
  simp only [Bool.and_eq_true, Bool.not_eq_true', List.any_eq_false,
    List.any_eq_true, Bool.or_eq_true, beq_iff_eq, List.mem_cons,
    List.not_mem_nil, or_false]
  constructor
  · rintro ⟨herr, si, hsi, hcase⟩
    refine ⟨fun e he => by simpa using herr e he, ?_⟩
    have hinc : jsIncludes (jsToLower text) si = true := by
      rcases hcase with hcase | hcase
      · exact jsIncludes_of_eq hcase
      · exact hcase
    rcases hsi with rfl | rfl | rfl | rfl
    · exact ⟨"true", by simp, Or.inr hinc⟩
    · exact ⟨"already subscribed", by simp, Or.inr hinc⟩
    · exact ⟨"already subscribed", by simp,
        Or.inr (includes_already_subscribed_of_dot hinc)⟩
    · exact ⟨"1", by simp, Or.inr hinc⟩
  · rintro ⟨herr, si, hsi, hcase⟩
    refine ⟨fun e he => by simpa using herr e he, ?_⟩
    rcases hsi with rfl | rfl | rfl
    · exact ⟨"true", by simp, hcase⟩
    · exact ⟨"already subscribed", by simp, hcase⟩
    · exact ⟨"1", by simp, hcase⟩

theorem processBatch_spec (dry : Bool) (so : String → String → SendySubResponse) :
    ∀ l : List QueueItem, processBatch dry so l =
      (l.map (fun it => (subscribeOne dry so it).1),
       if dry then [] else l.map (fun it => it.email))
  | [] => by cases dry <;> rfl
  | it :: rest => by
    unfold processBatch
    rw [processBatch_spec dry so rest]
    cases dry with
    | false => simp [subscribeOne]
    | true => simp [subscribeOne]

theorem bulkSubscribeAux_spec (so : String → String → SendySubResponse)
    (bs : Nat) (hbs : 1 ≤ bs) (dry : Bool) :
    ∀ fuel items, items.length ≤ fuel →
      bulkSubscribeAux dry so bs fuel items =
        (items.map (fun it => (subscribeOne dry so it).1),
         if dry then [] else items.map (fun it => it.email)) := by
  intro fuel
  induction fuel with
  | zero =>
    intro items h
    cases items with
    | nil => cases dry <;> rfl
    | cons a b => simp at h
  | succ f ih =>
    intro items h
    cases items with
    | nil => cases dry <;> rfl
    | cons it rest =>
      show (let batch := List.take bs (it :: rest);
        let h2 := processBatch dry so batch;
        let t := bulkSubscribeAux dry so bs f (List.drop bs (it :: rest));
        (h2.1 ++ t.1, h2.2 ++ t.2)) = _
      simp only
      rw [processBatch_spec]
      rw [ih ((it :: rest).drop bs)
        (by simp only [List.length_drop, List.length_cons] at h ⊢; omega)]
      cases dry with
      | false =>
        simp only [if_neg (by simp : ¬(false = true))]
        rw [← List.map_append, List.take_append_drop,
          ← List.map_append, List.take_append_drop]
      | true =>
        simp only [if_pos rfl]
        rw [← List.map_append, List.take_append_drop]
        simp

theorem bulkSubscribe_spec (so : String → String → SendySubResponse)
    (items : List QueueItem) (dry : Bool) (bs : Nat) (hbs : 1 ≤ bs) :
    bulkSubscribe so items dry bs =
      (items.map (fun it => (subscribeOne dry so it).1),
       if dry then [] else items.map (fun it => it.email)) :=
  bulkSubscribeAux_spec so bs hbs dry items.length items le_rfl

theorem bulkSubscribeAux_calls_sub (dry : Bool)
    (so : String → String → SendySubResponse) (bs : Nat) :
    ∀ fuel items c, c ∈ (bulkSubscribeAux dry so bs fuel items).2 →
      c ∈ items.map (fun it => it.email) := by
  intro fuel
  induction fuel with
  | zero =>
    intro items c hc
    cases items with
    | nil => simp [bulkSubscribeAux] at hc
    | cons a b => simp [bulkSubscribeAux] at hc
  | succ f ih =>
    intro items c hc
    cases items with
    | nil => simp [bulkSubscribeAux] at hc
    | cons it rest =>
      have hc2 : c ∈ (processBatch dry so (List.take bs (it :: rest))).2 ++
          (bulkSubscribeAux dry so bs f (List.drop bs (it :: rest))).2 := hc
      rw [processBatch_spec] at hc2
      simp only [List.mem_append] at hc2
      rcases hc2 with hc | hc
      · cases dry with
        | true => simp at hc
        | false =>
          simp only [if_neg (by simp : ¬(false = true))] at hc
          exact List.map_subset _ (List.take_subset bs (it :: rest)) hc
      · exact List.map_subset _ (List.drop_subset bs (it :: rest)) (ih _ c hc)

theorem bulkSubscribe_calls_sub (dry : Bool)
    (so : String → String → SendySubResponse) (bs : Nat)
    (items : List QueueItem) (c : String)
    (hc : c ∈ (bulkSubscribe so items dry bs).2) :
    c ∈ items.map (fun it => it.email) :=
  bulkSubscribeAux_calls_sub dry so bs items.length items c hc

/-- C3: with dry-run enabled, `bulkSubscribe` issues no subscribe call,
every queued item yields `success = false` with the `dry-run` sentinel
message, and consequently a dry run's report total `subscribed` is 0. -/
theorem c3_dry_run (so : String → String → SendySubResponse)
    (items : List QueueItem) (bs : Nat) (hbs : 1 ≤ bs)
    (cfg : RunConfig) (mem0 : String → Bool) (input : FileInput)
    (hdry : cfg.opts.dryRun = true) (hbs2 : 1 ≤ cfg.opts.batchSize) :
    (bulkSubscribe so items true bs).2 = [] ∧
    (bulkSubscribe so items true bs).1 =
      items.map (fun it => SubResult.mk it.email false "dry-run" none true) ∧
    ((bulkSubscribe so items true bs).1.filter (fun r => r.success)).length = 0 ∧
    (runSync cfg mem0 input).calls = [] ∧
    (runSync cfg mem0 input).subscribedTotal = 0 := by
  have hspec := bulkSubscribe_spec so items true bs hbs
  have hone : ∀ it : QueueItem, (subscribeOne true so it).1 =
      SubResult.mk it.email false "dry-run" none true := fun it => rfl
  have hres : (bulkSubscribe so items true bs).1 =
      items.map (fun it => SubResult.mk it.email false "dry-run" none true) := by
    rw [hspec]
    simp only [hone]
  have hfilter : ∀ l : List QueueItem,
      ((l.map (fun it => SubResult.mk it.email false "dry-run" none true)).filter
        (fun r => r.success)).length = 0 := by
    intro l
    induction l with
    | nil => rfl
    | cons x xs ihx =>
      simp only [List.map_cons, List.filter]
      exact ihx
  refine ⟨by rw [hspec]; rfl, hres, by rw [hres]; exact hfilter items, ?_, ?_⟩
  · show (bulkSubscribe cfg.subOracle _ cfg.opts.dryRun cfg.opts.batchSize).2 = []
    rw [hdry, bulkSubscribe_spec _ _ _ _ hbs2]
    rfl
  · show ((bulkSubscribe cfg.subOracle _ cfg.opts.dryRun
      cfg.opts.batchSize).1.filter (fun r => r.success)).length = 0
    rw [hdry, bulkSubscribe_spec _ _ _ _ hbs2]
    show ((List.map (fun it => (subscribeOne true cfg.subOracle it).1)
      _).filter (fun r => r.success)).length = 0
    exact hfilter _

/-- Witness for C3 at a concrete queue, oracle and run configuration. -/
theorem c3_dry_run_witness :
    (bulkSubscribe (fun _ _ => SendySubResponse.mk true "1" (some 200))
      [QueueItem.mk "a@x.com" "A"] true 1).2 = [] ∧
    (bulkSubscribe (fun _ _ => SendySubResponse.mk true "1" (some 200))
      [QueueItem.mk "a@x.com" "A"] true 1).1 =
      [QueueItem.mk "a@x.com" "A"].map
        (fun it => SubResult.mk it.email false "dry-run" none true) ∧
    ((bulkSubscribe (fun _ _ => SendySubResponse.mk true "1" (some 200))
      [QueueItem.mk "a@x.com" "A"] true 1).1.filter
        (fun r => r.success)).length = 0 ∧
    (runSync ⟨⟨true, false, false, false, false, "L", 20⟩,
      [Row.mk "a@x.com" "A" (some 5)],
      (fun _ => Except.ok "Not in list"),
      (fun _ _ => SendySubResponse.mk true "1" (some 200)),
      "2025-01-01T00:00:00Z"⟩ (fun _ => false) ⟨false, none⟩).calls = [] ∧
    (runSync ⟨⟨true, false, false, false, false, "L", 20⟩,
      [Row.mk "a@x.com" "A" (some 5)],
      (fun _ => Except.ok "Not in list"),
      (fun _ _ => SendySubResponse.mk true "1" (some 200)),
      "2025-01-01T00:00:00Z"⟩ (fun _ => false) ⟨false, none⟩).subscribedTotal
      = 0 :=
  c3_dry_run _ _ _ (by decide) _ _ _ rfl (by decide)

theorem bne_empty_of_isDateShape {d : String} (h : isDateShape d = true) :
    (d == "") = false := by
  by_cases hd : d = ""
  · subst hd
    exact absurd h (by decide)
  · exact beq_eq_false_iff_ne.mpr hd

theorem isDateShape_no_T {d : String} (h : isDateShape d = true) :
    jsIncludes d "T" = false := by
  cases hI : jsIncludes d "T" with
  | false => rfl
  | true =>
    exfalso
    have hmem : 'T' ∈ d.data := by
      have hinf : (['T'] : List Char) <:+: d.data :=
        (hasSubstr_infix_iff ['T'] d.data).mp hI
      exact hinf.sublist.mem (by simp)
    unfold isDateShape at h
    split at h
    next c0 c1 c2 c3 c4 c5 c6 c7 c8 c9 hd =>
      rw [hd] at hmem
      simp only [Bool.and_eq_true, beq_iff_eq] at h
      obtain ⟨⟨⟨⟨⟨⟨⟨⟨⟨h0, h1⟩, h2⟩, h3⟩, h4⟩, h5⟩, h6⟩, h7⟩, h8⟩, h9⟩ := h
      simp only [List.mem_cons, List.not_mem_nil, or_false] at hmem
      rcases hmem with rfl | rfl | rfl | rfl | rfl | rfl | rfl | rfl | rfl | rfl
      · exact absurd h0 (by decide)
      · exact absurd h1 (by decide)
      · exact absurd h2 (by decide)
      · exact absurd h3 (by decide)
      · exact absurd h4 (by decide)
      · exact absurd h5 (by decide)
      · exact absurd h6 (by decide)
      · exact absurd h7 (by decide)
      · exact absurd h8 (by decide)
      · exact absurd h9 (by decide)
    next => exact absurd h (by simp)

theorem normalizeDate_shape_since {d : String} (h : isDateShape d = true)
    (hk : kind = "since") : normalizeDate d kind = d ++ "T00:00:00Z" := by
  subst hk
  unfold normalizeDate
  rw [if_neg (by simp [bne_empty_of_isDateShape h]),
    if_neg (by simp [isDateShape_no_T h]), if_pos h,
    if_neg (by decide)]

theorem normalizeDate_shape_until {d : String} (h : isDateShape d = true) :
    normalizeDate d "until" = d ++ "T23:59:59Z" := by
  unfold normalizeDate
  rw [if_neg (by simp [bne_empty_of_isDateShape h]),
    if_neg (by simp [isDateShape_no_T h]), if_pos h,
    if_pos (by decide)]

theorem normalizeDate_passthrough (v kind : String) (hne : (v == "") = false)
    (hT : jsIncludes v "T" = true) : normalizeDate v kind = v := by
  unfold normalizeDate
  rw [if_neg (by simp [hne]), if_pos hT]

/-- C6 counterexample: a `YYYY-MM-DD` value given as `--since` (either
form) is stored verbatim — `normalizeDate` is applied only at the
`--from`/`--to` call sites — so the effective lower bound is the bare
date, not `<date>T00:00:00Z` as the claim states. -/
theorem c6_since_counterexample :
    (parseArgs {} ["--since", "2025-11-01"]).since = some "2025-11-01" ∧
    (parseArgs {} ["--since=2025-11-01"]).since = some "2025-11-01" ∧
    (parseArgs {} ["--until", "2025-11-01"]).untilOpt = some "2025-11-01" ∧
    ("2025-11-01" : String) ≠ "2025-11-01T00:00:00Z" ∧
    ("2025-11-01" : String) ≠ "2025-11-01T23:59:59Z" :=
  ⟨rfl, rfl, rfl, by decide, by decide⟩

/-- C6 (amended): a `YYYY-MM-DD` value given as `--from` yields the
effective lower bound `<date>T00:00:00Z` and given as `--to` yields the
effective upper bound `<date>T23:59:59Z`, while `--since`/`--until`
values are passed through verbatim (whatever their shape), and any value
already containing a time component (a `T`) passes through
`normalizeDate` unchanged. -/
theorem c6_amended (d : String) (h : isDateShape d = true) :
    (parseArgs {} ["--from", d]).since = some (d ++ "T00:00:00Z") ∧
    (parseArgs {} ["--to", d]).untilOpt = some (d ++ "T23:59:59Z") ∧
    (parseArgs {} ["--since", d]).since = some d ∧
    (parseArgs {} ["--until", d]).untilOpt = some d ∧
    (∀ v kind, (v == "") = false → jsIncludes v "T" = true →
      normalizeDate v kind = v) := by
  have hne : (d != "") = true := by
    rw [bne, bne_empty_of_isDateShape h]
    rfl
  refine ⟨?_, ?_, ?_, ?_, fun v kind hv hT => normalizeDate_passthrough v kind hv hT⟩
  · show (parseArgsGo (parseStep {} "--from" (some d)).1
      (parseStep {} "--from" (some d)).2 [d]).since = _
    have hstep : parseStep {} "--from" (some d) =
        ({ since := some (normalizeDate d "since") }, true) := by
      unfold parseStep
      simp only [jsTruthyOpt, hne]
      rfl
    rw [hstep]
    show some (normalizeDate d "since") = _
    rw [normalizeDate_shape_since h rfl]
  · show (parseArgsGo (parseStep {} "--to" (some d)).1
      (parseStep {} "--to" (some d)).2 [d]).untilOpt = _
    have hstep : parseStep {} "--to" (some d) =
        ({ untilOpt := some (normalizeDate d "until") }, true) := by
      unfold parseStep
      simp only [jsTruthyOpt, hne]
      rfl
    rw [hstep]
    show some (normalizeDate d "until") = _
    rw [normalizeDate_shape_until h]
  · show (parseArgsGo (parseStep {} "--since" (some d)).1
      (parseStep {} "--since" (some d)).2 [d]).since = _
    have hstep : parseStep {} "--since" (some d) = ({ since := some d }, true) := by
      unfold parseStep
      simp only [jsTruthyOpt, hne]
      rfl
    rw [hstep]
    rfl
  · show (parseArgsGo (parseStep {} "--until" (some d)).1
      (parseStep {} "--until" (some d)).2 [d]).untilOpt = _
    have hstep : parseStep {} "--until" (some d) =
        ({ untilOpt := some d }, true) := by
      unfold parseStep
      simp only [jsTruthyOpt, hne]
      rfl
    rw [hstep]
    rfl

/-- Witness for C6 (amended) at the concrete date `2025-11-01`. -/
theorem c6_amended_witness :
    (parseArgs {} ["--from", "2025-11-01"]).since =
      some ("2025-11-01" ++ "T00:00:00Z") ∧
    (parseArgs {} ["--to", "2025-11-01"]).untilOpt =
      some ("2025-11-01" ++ "T23:59:59Z") ∧
    (parseArgs {} ["--since", "2025-11-01"]).since = some "2025-11-01" ∧
    (parseArgs {} ["--until", "2025-11-01"]).untilOpt = some "2025-11-01" ∧
    (∀ v kind, (v == "") = false → jsIncludes v "T" = true →
      normalizeDate v kind = v) :=
  c6_amended "2025-11-01" (by decide)

theorem listOrdersGo_cap (oracle : Nat → ShopifyPage) :
    ∀ k attempts acc, 50 - attempts ≤ k → attempts < 50 →
      (listOrdersGo oracle attempts acc).2.1 ≤ 50 ∧
      ((listOrdersGo oracle attempts acc).2.2 = true →
        (listOrdersGo oracle attempts acc).2.1 = 50) := by
  intro k
  induction k with
  | zero =>
    intro attempts acc hk hlt
    omega
  | succ k ih =>
    intro attempts acc hk hlt
    rw [listOrdersGo]
    by_cases hcap : 50 ≤ attempts + 1
    · rw [dif_pos hcap]
      exact ⟨by show attempts + 1 ≤ 50; omega,
        fun _ => by show attempts + 1 = 50; omega⟩
    · rw [dif_neg hcap]
      cases hnp : (oracle attempts).nextPageUrl with
      | none =>
        simp only
        exact ⟨by omega, fun hfalse => by simp at hfalse⟩
      | some u =>
        simp only
        exact ih (attempts + 1) (acc ++ (oracle attempts).orders)
          (by omega) (by omega)

theorem listScheduledEventsGo_unbounded (oracle : Nat → CalendlyPage)
    (hn : ∀ n, ∃ u, (oracle n).nextPage = some u) :
    ∀ fuel n events seen pc,
      (listScheduledEventsGo oracle fuel n events seen pc).2.1 = pc + fuel ∧
      (listScheduledEventsGo oracle fuel n events seen pc).2.2 = false := by
  intro fuel
  induction fuel with
  | zero =>
    intro n events seen pc
    exact ⟨rfl, rfl⟩
  | succ f ih =>
    intro n events seen pc
    obtain ⟨u, hu⟩ := hn n
    rw [listScheduledEventsGo]
    simp only [hu]
    have := ih (n + 1) (events ++ (oracle n).collection) seen (pc + 1)
    refine ⟨?_, ?_⟩
    · show (listScheduledEventsGo oracle f (n + 1)
        (events ++ (oracle n).collection) seen (pc + 1)).2.1 = pc + (f + 1)
      rw [this.1]
      omega
    · show (listScheduledEventsGo oracle f (n + 1)
        (events ++ (oracle n).collection) seen (pc + 1)).2.2 = false
      exact this.2

/-- C7 counterexample: the 50-page safety cap exists only in the Shopify
client; `CalendlyClient.listScheduledEvents` has no page cap, so a
provider that keeps returning a `next_page` link is still being paged
after 51 pages — the fetch does not stop after the configured maximum
page count. -/
theorem c7_pagination_counterexample :
    (listScheduledEvents (fun _ => ⟨[], some "x", none⟩) 51).2.1 = 51 ∧
    (listScheduledEvents (fun _ => ⟨[], some "x", none⟩) 51).2.2 = false ∧
    ¬(51 ≤ 50) :=
  ⟨rfl, rfl, by decide⟩

/-- C7 (amended): Shopify pagination (`listOrders`, and `listCustomers`,
which has the same loop) stops after at most 50 pages for every provider
behaviour, reporting the cap as a logged warning (not a failure) exactly
when it fired at page 50; Calendly `listScheduledEvents` pagination has
no page cap — against a provider that returns a `next_page` link on every
response it fetches one page per loop iteration indefinitely, never
reaching any of its stop conditions. -/
theorem c7_pagination_amended (oracle : Nat → ShopifyPage)
    (coracle : Nat → CalendlyPage)
    (hn : ∀ n, ∃ u, (coracle n).nextPage = some u) (fuel : Nat) :
    (listOrders oracle).2.1 ≤ 50 ∧
    ((listOrders oracle).2.2 = true → (listOrders oracle).2.1 = 50) ∧
    (listScheduledEvents coracle fuel).2.1 = fuel ∧
    (listScheduledEvents coracle fuel).2.2 = false := by
  have h1 := listOrdersGo_cap oracle 50 0 [] (by omega) (by omega)
  have h2 := listScheduledEventsGo_unbounded coracle hn fuel 0 [] [] 0
  have h3 : (0 : Nat) + fuel = fuel := by omega
  rw [h3] at h2
  exact ⟨h1.1, h1.2, h2.1, h2.2⟩

/-- Witness for C7 (amended) at a concrete pair of provider oracles. -/
theorem c7_pagination_amended_witness :
    (listOrders (fun _ => ⟨[], some "next"⟩)).2.1 ≤ 50 ∧
    ((listOrders (fun _ => ⟨[], some "next"⟩)).2.2 = true →
      (listOrders (fun _ => ⟨[], some "next"⟩)).2.1 = 50) ∧
    (listScheduledEvents (fun _ => ⟨[], some "x", none⟩) 60).2.1 = 60 ∧
    (listScheduledEvents (fun _ => ⟨[], some "x", none⟩) 60).2.2 = false :=
  c7_pagination_amended (fun _ => ⟨[], some "next"⟩)
    (fun _ => ⟨[], some "x", none⟩) (fun _ => ⟨"x", rfl⟩) 60

/-- C10 counterexample: with a secret configured, a carried signature
header whose byte length differs from the expected 44-character base64
HMAC makes `crypto.timingSafeEqual` throw; the handler's `catch` then
answers 500, not 401 — so a request carrying a header that fails
verification is not answered 401, refuting the claimed "if and only if".
(The HMAC oracle below returns a fixed 44-character digest, the length
every base64 SHA-256 HMAC has.) -/
theorem c10_webhook_counterexample :
    verifyWebhookSignature (some "secret")
      (fun _ _ => "AAAAAAAAAAAAAAAAAAAAAAAAAAAAAAAAAAAAAAAAAAA=") "{}" "x" =
      Except.error () ∧
    handleCalendlyWebhook (some "secret")
      (fun _ _ => "AAAAAAAAAAAAAAAAAAAAAAAAAAAAAAAAAAAAAAAAAAA=")
      ⟨some "x", "{}", "invitee.created"⟩ =
      (WebhookResp.error500, false, true) ∧
    WebhookResp.error500 ≠ WebhookResp.invalid401 :=
  ⟨rfl, rfl, by decide⟩

/-- C10 (amended): the handler answers 401 iff the request carries a
non-empty `calendly-webhook-signature` header, a webhook secret is
configured, the header has the same byte length as the expected base64
HMAC, and differs from it; a carried header of a different byte length
yields 500 (the `timingSafeEqual` throw is caught by the generic error
handler); and a request with no (or an empty) signature header is always
processed without any signature verification, even when the secret is
configured. -/
theorem c10_webhook_signature (secret : Option String)
    (hmac : String → String → String) (req : WebhookRequest) :
    ((handleCalendlyWebhook secret hmac req).1 = WebhookResp.invalid401 ↔
      (jsTruthyOpt req.signature = true ∧ ∃ sec, secret = some sec ∧
        (req.signature.getD "").utf8ByteSize =
          (hmac sec req.rawBody).utf8ByteSize ∧
        req.signature.getD "" ≠ hmac sec req.rawBody)) ∧
    (∀ sec, secret = some sec → jsTruthyOpt req.signature = true →
      (req.signature.getD "").utf8ByteSize ≠
        (hmac sec req.rawBody).utf8ByteSize →
      (handleCalendlyWebhook secret hmac req).1 = WebhookResp.error500) ∧
    (jsTruthyOpt req.signature = false →
      (handleCalendlyWebhook secret hmac req).2.2 = false ∧
      (handleCalendlyWebhook secret hmac req).1 = WebhookResp.received200 ∧
      ((handleCalendlyWebhook secret hmac req).2.1 = true ↔
        req.event = "invitee.created")) := by
  have hverify_some : ∀ sec payload sig,
      verifyWebhookSignature (some sec) hmac payload sig =
        (if sig.utf8ByteSize ≠ (hmac sec payload).utf8ByteSize then
          Except.error () else Except.ok (decide (sig = hmac sec payload))) :=
    fun _ _ _ => rfl
  have hhandle_true : jsTruthyOpt req.signature = true →
      handleCalendlyWebhook secret hmac req =
      (match verifyWebhookSignature secret hmac req.rawBody
          (req.signature.getD "") with
       | Except.error _ => (WebhookResp.error500, false, true)
       | Except.ok false => (WebhookResp.invalid401, false, true)
       | Except.ok true =>
         if req.event = "invitee.created" then
           (WebhookResp.received200, true, true)
         else (WebhookResp.received200, false, true)) := by
    intro hsig
    unfold handleCalendlyWebhook
    rw [if_pos hsig]
  refine ⟨?_, ?_, ?_⟩
  · cases hsigB : jsTruthyOpt req.signature with
    | false =>
      unfold handleCalendlyWebhook
      rw [if_neg (by simp [hsigB])]
      by_cases hev : req.event = "invitee.created" <;> simp [hev]
    | true =>
      rw [hhandle_true hsigB]
      cases secret with
      | none =>
        show ((if req.event = "invitee.created" then
            (WebhookResp.received200, true, true)
          else (WebhookResp.received200, false, true)) :
            WebhookResp × Bool × Bool).1 = WebhookResp.invalid401 ↔ _
        by_cases hev : req.event = "invitee.created" <;> simp [hev]
      | some sec =>
        rw [hverify_some]
        by_cases hlen : (req.signature.getD "").utf8ByteSize =
            (hmac sec req.rawBody).utf8ByteSize
        · rw [if_neg (by simpa using hlen)]
          by_cases heq : req.signature.getD "" = hmac sec req.rawBody
          · by_cases hev : req.event = "invitee.created" <;>
              simp [heq, hev, hlen]
          · simp [heq, hlen]
        · rw [if_pos (by simpa using hlen)]
          simp [hlen]
  · intro sec hsec hsig hlen
    subst hsec
    rw [hhandle_true hsig, hverify_some, if_pos (by simpa using hlen)]
  · intro hsig
    unfold handleCalendlyWebhook
    rw [if_neg (by simp [hsig])]
    by_cases hev : req.event = "invitee.created" <;> simp [hev]

/-- Witness for C10 (amended) at a concrete secret, HMAC oracle and
request (signature of matching length but wrong value ⇒ 401). -/
theorem c10_webhook_signature_witness :
    (handleCalendlyWebhook (some "s") (fun _ _ => "ab")
      ⟨some "cd", "m", "invitee.created"⟩).1 = WebhookResp.invalid401 :=
  ((c10_webhook_signature (some "s") (fun _ _ => "ab")
    ⟨some "cd", "m", "invitee.created"⟩).1).mpr
    ⟨rfl, "s", rfl, rfl, by decide⟩

/-- No queued item's email coincides (after lowercasing) with `e`. -/
def queueAvoids (e : String) (q : List QueueItem) : Prop :=
  ∀ it ∈ q, jsToLower it.email ≠ jsToLower e

theorem dataHas_key (d : FileCacheData) (l x y : String)
    (h : jsToLower x = jsToLower y) : dataHas d l x = dataHas d l y := by
  unfold dataHas
  rw [h]

theorem processRecord_invC1 (opts : SyncOpts) (input : FileInput)
    (so : String → Except Unit String) (now : String) (e : String)
    (hnp : opts.noPersistentCache = false) (hnow : now ≠ "")
    (st : SyncState) (r : Row)
    (hld : st.fc.loaded = true)
    (hdata : dataHas st.fc.data opts.listId e = true)
    (hqa : queueAvoids e st.toSubscribe) :
    (processRecord opts input so now st r).fc.loaded = true ∧
    dataHas (processRecord opts input so now st r).fc.data opts.listId e = true ∧
    queueAvoids e (processRecord opts input so now st r).toSubscribe := by
  have hbase1 : (st.fc.hasEmail input opts.listId (jsToLower r.email)).1.loaded
      = true := hasEmail_fst_loaded_flag st.fc input opts.listId
      (jsToLower r.email) hld
  have hbase2 : dataHas
      (st.fc.hasEmail input opts.listId (jsToLower r.email)).1.data
      opts.listId e = true := by
    rw [hasEmail_fst_dataHas st.fc input opts.listId (jsToLower r.email)
      opts.listId e hld]
    exact hdata
  have hpush : (st.fc.hasEmail input opts.listId (jsToLower r.email)).2 =
      false → queueAvoids e (st.toSubscribe ++ [⟨r.email, r.name⟩]) := by
    intro hp2 it hit
    rcases List.mem_append.mp hit with h1 | h2
    · exact hqa it h1
    · have heq : it = ⟨r.email, r.name⟩ := by simpa using h2
      subst heq
      intro hEq
      rw [hasEmail_snd st.fc input _ _ hld, dataHas_lower,
        dataHas_key st.fc.data opts.listId r.email e hEq, hdata] at hp2
      exact absurd hp2 (by decide)
  unfold processRecord
  simp only [hnp, Bool.false_eq_true, if_false]
  split
  · exact ⟨hbase1, hbase2, hqa⟩
  · split
    · exact ⟨hbase1, hbase2, hqa⟩
    · rename_i hmemN hp2
      split
      · refine ⟨setEmail_loaded _ input _ _ now hbase1, ?_, hqa⟩
        rw [setEmail_dataHas _ input _ _ _ hbase1 hnow]
        by_cases hc : opts.listId = opts.listId ∧
            jsToLower e = jsToLower (jsToLower r.email)
        · rw [if_pos hc]
        · rw [if_neg hc]
          exact hbase2
      · split
        · exact ⟨hbase1, hbase2, hqa⟩
        · split
          · exact ⟨hbase1, hbase2, hqa⟩
          · split
            · exact ⟨hbase1, hbase2, hpush (by simpa using hp2)⟩
            · split
              · exact ⟨hbase1, hbase2, hpush (by simpa using hp2)⟩
              · exact ⟨hbase1, hbase2, hpush (by simpa using hp2)⟩

theorem foldl_preserve {α σ : Type} (step : σ → α → σ) (P : σ → Prop)
    (hstep : ∀ s a, P s → P (step s a)) :
    ∀ l : List α, ∀ s, P s → P (l.foldl step s)
  | [], _, hs => hs
  | a :: l, s, hs => foldl_preserve step P hstep l (step s a) (hstep s a hs)

theorem load_flag (fc : FileCache) (input : FileInput) :
    (fc.load input).loaded = true := by
  unfold FileCache.load
  split
  · assumption
  · rfl

theorem runSetupFc_eq (opts : SyncOpts) (input : FileInput)
    (hnp : opts.noPersistentCache = false)
    (hrf : opts.refreshPersistent = false) :
    runSetupFc opts input = freshFileCache.load input := by
  unfold runSetupFc
  rw [if_neg (by simp [hnp])]
  simp only
  rw [if_neg (by simp [hrf])]

theorem runSync_persistent_no_resubmit (cfg : RunConfig)
    (mem0 : String → Bool) (input : FileInput) (e : String)
    (hnp : cfg.opts.noPersistentCache = false)
    (hrf : cfg.opts.refreshPersistent = false)
    (hnow : cfg.nowIso ≠ "")
    (hdata : dataHas (freshFileCache.load input).data cfg.opts.listId e = true) :
    ∀ c ∈ (runSync cfg mem0 input).calls, jsToLower c ≠ jsToLower e := by
  intro c hc
  have hc2 : c ∈ (bulkSubscribe cfg.subOracle
      (runRows cfg mem0 input).toSubscribe cfg.opts.dryRun
      cfg.opts.batchSize).2 := hc
  have hmem := bulkSubscribe_calls_sub cfg.opts.dryRun cfg.subOracle
    cfg.opts.batchSize (runRows cfg mem0 input).toSubscribe c hc2
  obtain ⟨it, hit, hite⟩ := List.mem_map.mp hmem
  have hinv : (runRows cfg mem0 input).fc.loaded = true ∧
      dataHas (runRows cfg mem0 input).fc.data cfg.opts.listId e = true ∧
      queueAvoids e (runRows cfg mem0 input).toSubscribe := by
    apply foldl_preserve
      (processRecord cfg.opts input cfg.statusOracle cfg.nowIso)
      (fun st => st.fc.loaded = true ∧
        dataHas st.fc.data cfg.opts.listId e = true ∧
        queueAvoids e st.toSubscribe)
      (fun st r hyp =>
        processRecord_invC1 cfg.opts input cfg.statusOracle cfg.nowIso e hnp
          hnow st r hyp.1 hyp.2.1 hyp.2.2)
      cfg.rows
    refine ⟨?_, ?_, ?_⟩
    · show (runSetupFc cfg.opts input).loaded = true
      rw [runSetupFc_eq cfg.opts input hnp hrf]
      exact load_flag _ _
    · show dataHas (runSetupFc cfg.opts input).data cfg.opts.listId e = true
      rw [runSetupFc_eq cfg.opts input hnp hrf]
      exact hdata
    · intro it hit
      simp [runInitState] at hit
  rw [← hite]
  exact hinv.2.2 it hit

theorem processRecord_memHit (opts : SyncOpts) (input : FileInput)
    (so : String → Except Unit String) (now : String)
    (st : SyncState) (r : Row)
    (hnc : opts.noCache = false)
    (hmem : st.mem (memKey opts.listId r.email) = true) :
    (processRecord opts input so now st r).toSubscribe = st.toSubscribe ∧
    (processRecord opts input so now st r).statusChecked = st.statusChecked ∧
    (processRecord opts input so now st r).counters =
      { st.counters with cached := st.counters.cached + 1 } ∧
    (processRecord opts input so now st r).mem = st.mem := by
  cases hnpv : opts.noPersistentCache with
  | true =>
    unfold processRecord
    simp only [hnpv, reduceIte]
    split
    · exact ⟨rfl, rfl, rfl, rfl⟩
    · rename_i hcond
      refine absurd ?_ hcond
      show (!opts.noCache && st.mem (memKey opts.listId r.email)) = true
      rw [hnc, hmem]
      rfl
  | false =>
    unfold processRecord
    simp only [hnpv, Bool.false_eq_true, if_false]
    split
    · exact ⟨rfl, rfl, rfl, rfl⟩
    · rename_i hcond
      refine absurd ?_ hcond
      show (!opts.noCache && st.mem (memKey opts.listId r.email)) = true
      rw [hnc, hmem]
      rfl

theorem processRecord_persistentHit (opts : SyncOpts) (input : FileInput)
    (so : String → Except Unit String) (now : String)
    (st : SyncState) (r : Row)
    (hld : st.fc.loaded = true)
    (hnp : opts.noPersistentCache = false)
    (hmiss : opts.noCache = true ∨ st.mem (memKey opts.listId r.email) = false)
    (hhit : dataHas st.fc.data opts.listId r.email = true) :
    (processRecord opts input so now st r).toSubscribe = st.toSubscribe ∧
    (processRecord opts input so now st r).statusChecked = st.statusChecked ∧
    (processRecord opts input so now st r).counters =
      { st.counters with
        alreadySubscribed := st.counters.alreadySubscribed + 1 } ∧
    (processRecord opts input so now st r).mem = st.mem := by
  unfold processRecord
  simp only [hnp, Bool.false_eq_true, if_false]
  split
  · rename_i hcond
    rcases hmiss with hm | hm <;> simp [hm] at hcond
  · split
    · exact ⟨rfl, rfl, rfl, rfl⟩
    · rename_i hmemN hp2
      exfalso
      apply hp2
      rw [hasEmail_snd st.fc input _ _ hld, dataHas_lower]
      exact hhit

/-- C1: per candidate record, an in-memory cache hit skips the record
(counted as `cached`) with no remote status check and no queueing for
subscribe; otherwise a persistent cache hit skips it (counted as
`alreadySubscribed`) with no remote status check and no queueing; and at
run level, an email present in the persistent cache file for the list is
never the target of a subscribe call during a run with the persistent
cache enabled and not refreshed — so it is never resubmitted until the
cache file is cleared or refreshed. -/
theorem c1_cache_short_circuit
    (opts : SyncOpts) (input : FileInput) (so : String → Except Unit String)
    (now : String) (st : SyncState) (r : Row)
    (cfg : RunConfig) (mem0 : String → Bool) (inp : FileInput) (e : String) :
    (opts.noCache = false → st.mem (memKey opts.listId r.email) = true →
      (processRecord opts input so now st r).toSubscribe = st.toSubscribe ∧
      (processRecord opts input so now st r).statusChecked = st.statusChecked ∧
      (processRecord opts input so now st r).counters =
        { st.counters with cached := st.counters.cached + 1 } ∧
      (processRecord opts input so now st r).mem = st.mem) ∧
    (st.fc.loaded = true → opts.noPersistentCache = false →
      (opts.noCache = true ∨ st.mem (memKey opts.listId r.email) = false) →
      dataHas st.fc.data opts.listId r.email = true →
      (processRecord opts input so now st r).toSubscribe = st.toSubscribe ∧
      (processRecord opts input so now st r).statusChecked = st.statusChecked ∧
      (processRecord opts input so now st r).counters =
        { st.counters with
          alreadySubscribed := st.counters.alreadySubscribed + 1 } ∧
      (processRecord opts input so now st r).mem = st.mem) ∧
    (cfg.opts.noPersistentCache = false → cfg.opts.refreshPersistent = false →
      cfg.nowIso ≠ "" →
      dataHas (freshFileCache.load inp).data cfg.opts.listId e = true →
      ∀ c ∈ (runSync cfg mem0 inp).calls, jsToLower c ≠ jsToLower e) :=
  ⟨fun hnc hmem => processRecord_memHit opts input so now st r hnc hmem,
   fun hld hnp hmiss hhit =>
     processRecord_persistentHit opts input so now st r hld hnp hmiss hhit,
   fun hnp hrf hnow hdata =>
     runSync_persistent_no_resubmit cfg mem0 inp e hnp hrf hnow hdata⟩

/-- Witness for C1 at concrete states: a record whose key is in the
in-memory cache, a record whose email is in the persistent cache, and a
run whose cache file already contains the email. -/
theorem c1_cache_short_circuit_witness :
    ((processRecord ⟨false, false, false, false, false, "L", 20⟩
        ⟨false, none⟩ (fun _ => Except.ok "Not in list") "T"
        ⟨fun _ => true, ⟨emptyCacheData, true⟩, ⟨0, 0, 0, 0, 0, 0⟩, [], []⟩
        ⟨"a@x.com", "A", some 5⟩).toSubscribe = [] ∧
      (processRecord ⟨false, false, false, false, false, "L", 20⟩
        ⟨false, none⟩ (fun _ => Except.ok "Not in list") "T"
        ⟨fun _ => true, ⟨emptyCacheData, true⟩, ⟨0, 0, 0, 0, 0, 0⟩, [], []⟩
        ⟨"a@x.com", "A", some 5⟩).statusChecked = []) ∧
    ((processRecord ⟨false, false, false, false, false, "L", 20⟩
        ⟨false, none⟩ (fun _ => Except.ok "Not in list") "T"
        ⟨fun _ => false,
         ⟨⟨fun l => if l = "L" then
             some ⟨fun k => if k = "a@x.com" then some "t" else none⟩
           else none⟩, true⟩, ⟨0, 0, 0, 0, 0, 0⟩, [], []⟩
        ⟨"a@x.com", "A", some 5⟩).toSubscribe = [] ∧
      (processRecord ⟨false, false, false, false, false, "L", 20⟩
        ⟨false, none⟩ (fun _ => Except.ok "Not in list") "T"
        ⟨fun _ => false,
         ⟨⟨fun l => if l = "L" then
             some ⟨fun k => if k = "a@x.com" then some "t" else none⟩
           else none⟩, true⟩, ⟨0, 0, 0, 0, 0, 0⟩, [], []⟩
        ⟨"a@x.com", "A", some 5⟩).statusChecked = []) ∧
    (∀ c ∈ (runSync ⟨⟨false, false, false, false, false, "L", 20⟩,
        [⟨"a@x.com", "A", some 5⟩], (fun _ => Except.ok "Not in list"),
        (fun _ _ => SendySubResponse.mk true "1" (some 200)), "T"⟩
        (fun _ => false)
        ⟨true, some ⟨fun l => if l = "L" then
            some ⟨fun k => if k = "a@x.com" then some "t" else none⟩
          else none⟩⟩).calls, jsToLower c ≠ jsToLower "a@x.com") := by
  have h1 := (c1_cache_short_circuit
    ⟨false, false, false, false, false, "L", 20⟩ ⟨false, none⟩
    (fun _ => Except.ok "Not in list") "T"
    ⟨fun _ => true, ⟨emptyCacheData, true⟩, ⟨0, 0, 0, 0, 0, 0⟩, [], []⟩
    ⟨"a@x.com", "A", some 5⟩
    ⟨⟨false, false, false, false, false, "L", 20⟩,
      [⟨"a@x.com", "A", some 5⟩], (fun _ => Except.ok "Not in list"),
      (fun _ _ => SendySubResponse.mk true "1" (some 200)), "T"⟩
    (fun _ => false) ⟨true, some ⟨fun l => if l = "L" then
        some ⟨fun k => if k = "a@x.com" then some "t" else none⟩
      else none⟩⟩ "a@x.com")
  have h2 := (c1_cache_short_circuit
    ⟨false, false, false, false, false, "L", 20⟩ ⟨false, none⟩
    (fun _ => Except.ok "Not in list") "T"
    ⟨fun _ => false,
     ⟨⟨fun l => if l = "L" then
         some ⟨fun k => if k = "a@x.com" then some "t" else none⟩
       else none⟩, true⟩, ⟨0, 0, 0, 0, 0, 0⟩, [], []⟩
    ⟨"a@x.com", "A", some 5⟩
    ⟨⟨false, false, false, false, false, "L", 20⟩,
      [⟨"a@x.com", "A", some 5⟩], (fun _ => Except.ok "Not in list"),
      (fun _ _ => SendySubResponse.mk true "1" (some 200)), "T"⟩
    (fun _ => false) ⟨true, some ⟨fun l => if l = "L" then
        some ⟨fun k => if k = "a@x.com" then some "t" else none⟩
      else none⟩⟩ "a@x.com")
  have ha := h1.1 rfl rfl
  have hb := h2.2.1 rfl rfl (Or.inr rfl) (by rfl)
  have hc := h1.2.2 rfl rfl (by decide) (by rfl)
  exact ⟨⟨ha.1, ha.2.1⟩, ⟨hb.1, hb.2.1⟩, hc⟩

theorem processRecord_unsubscribed (opts : SyncOpts) (input : FileInput)
    (so : String → Except Unit String) (now : String)
    (st : SyncState) (r : Row) (raw : String)
    (hld : st.fc.loaded = true)
    (hnp : opts.noPersistentCache = false)
    (hmiss : opts.noCache = true ∨ st.mem (memKey opts.listId r.email) = false)
    (hpdata : dataHas st.fc.data opts.listId r.email = false)
    (horacle : so r.email = Except.ok raw)
    (hnorm : normalizeStatus raw = "unsubscribed") :
    (processRecord opts input so now st r).toSubscribe = st.toSubscribe ∧
    (processRecord opts input so now st r).statusChecked =
      st.statusChecked ++ [r.email] ∧
    (processRecord opts input so now st r).counters =
      { st.counters with unsubscribed := st.counters.unsubscribed + 1 } ∧
    (opts.noCache = false →
      (processRecord opts input so now st r).mem
        (memKey opts.listId r.email) = true) ∧
    (∀ l x, dataHas (processRecord opts input so now st r).fc.data l x =
      dataHas st.fc.data l x) := by
  unfold processRecord
  simp only [hnp, Bool.false_eq_true, if_false]
  split
  · rename_i hcond
    rcases hmiss with hm | hm <;> simp [hm] at hcond
  · split
    · rename_i hmemN hp2
      exfalso
      rw [hasEmail_snd st.fc input _ _ hld, dataHas_lower, hpdata] at hp2
      exact absurd hp2 (by decide)
    · simp only [horacle, hnorm]
      refine ⟨rfl, rfl, rfl, ?_, ?_⟩
      · intro hnc
        show (if opts.noCache = true then st.mem
          else memSet st.mem (memKey opts.listId r.email))
          (memKey opts.listId r.email) = true
        rw [hnc]
        show memSet st.mem (memKey opts.listId r.email)
          (memKey opts.listId r.email) = true
        unfold memSet
        rw [if_pos rfl]
      · intro l x
        exact hasEmail_fst_dataHas st.fc input opts.listId
          (jsToLower r.email) l x hld

set_option maxHeartbeats 1000000 in
theorem processRecord_unsub_queue (opts : SyncOpts) (input : FileInput)
    (so : String → Except Unit String) (now : String) (e raw : String)
    (st : SyncState) (r : Row)
    (horacle : so e = Except.ok raw)
    (hnorm : normalizeStatus raw = "unsubscribed")
    (hP : ∀ it ∈ st.toSubscribe, it.email ≠ e) :
    ∀ it ∈ (processRecord opts input so now st r).toSubscribe,
      it.email ≠ e := by
  have hext : r.email ≠ e →
      ∀ it ∈ st.toSubscribe ++ [QueueItem.mk r.email r.name], it.email ≠ e := by
    intro hne it hit
    rcases List.mem_append.mp hit with h1 | h2
    · exact hP it h1
    · have heq : it = ⟨r.email, r.name⟩ := by simpa using h2
      subst heq
      exact hne
  cases hnpv : opts.noPersistentCache with
  | true =>
    unfold processRecord
    simp only [hnpv, reduceIte]
    by_cases hre : r.email = e
    · subst hre
      split
      · exact hP
      · split
        · exact hP
        · simp only [horacle, hnorm]
          exact hP
    · split
      · exact hP
      · split
        · exact hP
        · split
          · exact hP
          · split
            · exact hP
            · split
              · exact hP
              · split
                · exact hext hre
                · split
                  · exact hext hre
                  · exact hext hre
  | false =>
    unfold processRecord
    simp only [hnpv, Bool.false_eq_true, if_false]
    by_cases hre : r.email = e
    · subst hre
      split
      · exact hP
      · split
        · exact hP
        · simp only [horacle, hnorm]
          exact hP
    · split
      · exact hP
      · split
        · exact hP
        · split
          · exact hP
          · split
            · exact hP
            · split
              · exact hP
              · split
                · exact hext hre
                · split
                  · exact hext hre
                  · exact hext hre

theorem runSync_unsub_no_call (cfg : RunConfig) (mem0 : String → Bool)
    (input : FileInput) (e raw : String)
    (horacle : cfg.statusOracle e = Except.ok raw)
    (hnorm : normalizeStatus raw = "unsubscribed") :
    ∀ c ∈ (runSync cfg mem0 input).calls, c ≠ e := by
  intro c hc
  have hc2 : c ∈ (bulkSubscribe cfg.subOracle
      (runRows cfg mem0 input).toSubscribe cfg.opts.dryRun
      cfg.opts.batchSize).2 := hc
  have hmem := bulkSubscribe_calls_sub cfg.opts.dryRun cfg.subOracle
    cfg.opts.batchSize (runRows cfg mem0 input).toSubscribe c hc2
  obtain ⟨it, hit, hite⟩ := List.mem_map.mp hmem
  have hinv : ∀ it2 ∈ (runRows cfg mem0 input).toSubscribe,
      it2.email ≠ e := by
    apply foldl_preserve
      (processRecord cfg.opts input cfg.statusOracle cfg.nowIso)
      (fun st => ∀ it2 ∈ st.toSubscribe, it2.email ≠ e)
      (fun st r hyp => processRecord_unsub_queue cfg.opts input
        cfg.statusOracle cfg.nowIso e raw st r horacle hnorm hyp)
      cfg.rows
    intro it2 hit2
    simp [runInitState] at hit2
  rw [← hite]
  exact hinv it hit

theorem runSeq_unsub_never :
    ∀ (cfgs : List (RunConfig × (String → Bool))) (disk : FileInput)
      (e : String),
    (∀ p ∈ cfgs, ∃ raw, p.1.statusOracle e = Except.ok raw ∧
      normalizeStatus raw = "unsubscribed") →
    e ∉ runSeq cfgs disk
  | [], disk, e, _ => by simp [runSeq]
  | (cfg, m0) :: rest, disk, e, h => by
    unfold runSeq
    simp only [List.mem_append]
    rintro (hc | hc)
    · obtain ⟨raw, ho, hn⟩ := h (cfg, m0) (by simp)
      exact (runSync_unsub_no_call cfg m0 disk e raw ho hn e hc) rfl
    · exact runSeq_unsub_never rest _ e (fun p hp => h p (by simp [hp])) hc

/-- C2: a candidate record whose remote status check reports
`unsubscribed` is skipped (counted as `unsubscribed`) with nothing queued
for subscribe; the skip is recorded in the in-memory cache only — the
persistent cache document is untouched; and across any sequence of runs
sharing the cache file (with arbitrary flags, including cache clears and
refreshes), as long as the status oracle keeps reporting `unsubscribed`
for the email, no subscribe call is ever issued for it. -/
theorem c2_unsubscribed_policy (opts : SyncOpts) (input : FileInput)
    (so : String → Except Unit String) (now : String)
    (st : SyncState) (r : Row) (raw : String)
    (cfgs : List (RunConfig × (String → Bool))) (disk : FileInput)
    (e : String) :
    (st.fc.loaded = true → opts.noPersistentCache = false →
      (opts.noCache = true ∨ st.mem (memKey opts.listId r.email) = false) →
      dataHas st.fc.data opts.listId r.email = false →
      so r.email = Except.ok raw → normalizeStatus raw = "unsubscribed" →
      (processRecord opts input so now st r).toSubscribe = st.toSubscribe ∧
      (processRecord opts input so now st r).statusChecked =
        st.statusChecked ++ [r.email] ∧
      (processRecord opts input so now st r).counters =
        { st.counters with unsubscribed := st.counters.unsubscribed + 1 } ∧
      (opts.noCache = false →
        (processRecord opts input so now st r).mem
          (memKey opts.listId r.email) = true) ∧
      (∀ l x, dataHas (processRecord opts input so now st r).fc.data l x =
        dataHas st.fc.data l x)) ∧
    ((∀ p ∈ cfgs, ∃ raw2, p.1.statusOracle e = Except.ok raw2 ∧
        normalizeStatus raw2 = "unsubscribed") →
      e ∉ runSeq cfgs disk) :=
  ⟨fun hld hnp hmiss hpdata horacle hnorm =>
    processRecord_unsubscribed opts input so now st r raw hld hnp hmiss
      hpdata horacle hnorm,
   fun h => runSeq_unsub_never cfgs disk e h⟩

/-- Witness for C2: a concrete unsubscribed record in one run, and a
two-run sequence (the second run clearing both caches) whose status
oracle keeps reporting `Unsubscribed`. -/
theorem c2_unsubscribed_policy_witness :
    ((processRecord ⟨false, false, false, false, false, "L", 20⟩
        ⟨false, none⟩ (fun _ => Except.ok "Unsubscribed") "T"
        ⟨fun _ => false, ⟨emptyCacheData, true⟩, ⟨0, 0, 0, 0, 0, 0⟩, [], []⟩
        ⟨"u@x.com", "U", some 1⟩).toSubscribe = [] ∧
      (processRecord ⟨false, false, false, false, false, "L", 20⟩
        ⟨false, none⟩ (fun _ => Except.ok "Unsubscribed") "T"
        ⟨fun _ => false, ⟨emptyCacheData, true⟩, ⟨0, 0, 0, 0, 0, 0⟩, [], []⟩
        ⟨"u@x.com", "U", some 1⟩).statusChecked = [] ++ ["u@x.com"] ∧
      (∀ l x, dataHas (processRecord
        ⟨false, false, false, false, false, "L", 20⟩
        ⟨false, none⟩ (fun _ => Except.ok "Unsubscribed") "T"
        ⟨fun _ => false, ⟨emptyCacheData, true⟩, ⟨0, 0, 0, 0, 0, 0⟩, [], []⟩
        ⟨"u@x.com", "U", some 1⟩).fc.data l x = dataHas emptyCacheData l x)) ∧
    "u@x.com" ∉ runSeq
      [(⟨⟨false, false, false, false, false, "L", 20⟩,
         [⟨"u@x.com", "U", some 1⟩], (fun _ => Except.ok "Unsubscribed"),
         (fun _ _ => SendySubResponse.mk true "1" (some 200)), "T"⟩,
        fun _ => false),
       (⟨⟨false, false, true, false, true, "L", 20⟩,
         [⟨"u@x.com", "U", some 2⟩], (fun _ => Except.ok "Unsubscribed"),
         (fun _ _ => SendySubResponse.mk true "1" (some 200)), "T"⟩,
        fun _ => false)] ⟨false, none⟩ := by
  have h := c2_unsubscribed_policy ⟨false, false, false, false, false, "L", 20⟩
    ⟨false, none⟩ (fun _ => Except.ok "Unsubscribed") "T"
    ⟨fun _ => false, ⟨emptyCacheData, true⟩, ⟨0, 0, 0, 0, 0, 0⟩, [], []⟩
    ⟨"u@x.com", "U", some 1⟩ "Unsubscribed"
    [(⟨⟨false, false, false, false, false, "L", 20⟩,
       [⟨"u@x.com", "U", some 1⟩], (fun _ => Except.ok "Unsubscribed"),
       (fun _ _ => SendySubResponse.mk true "1" (some 200)), "T"⟩,
      fun _ => false),
     (⟨⟨false, false, true, false, true, "L", 20⟩,
       [⟨"u@x.com", "U", some 2⟩], (fun _ => Except.ok "Unsubscribed"),
       (fun _ _ => SendySubResponse.mk true "1" (some 200)), "T"⟩,
      fun _ => false)] ⟨false, none⟩ "u@x.com"
  have ha := h.1 rfl rfl (Or.inr rfl) rfl rfl (by rfl)
  have hb := h.2 (by
    intro p hp
    simp only [List.mem_cons, List.not_mem_nil, or_false] at hp
    rcases hp with rfl | rfl
    · exact ⟨"Unsubscribed", rfl, by rfl⟩
    · exact ⟨"Unsubscribed", rfl, by rfl⟩)
  exact ⟨⟨ha.1, ha.2.1, ha.2.2.2.2⟩, hb⟩

/-- A string is a normalized email: the lowercased, trimmed form of some
raw provider email. -/
def emailNormal (x : String) : Prop :=
  ∃ e0, x = jsTrim (jsToLower e0)

theorem mem_mapSet {β : Type} (m : List (String × β)) (k : String) (v : β) :
    ∀ p ∈ mapSet m k v, p ∈ m ∨ p = (k, v) := by
  intro p hp
  unfold mapSet at hp
  split at hp
  · rw [List.mem_map] at hp
    obtain ⟨q, hq, hqe⟩ := hp
    by_cases hk : q.1 = k
    · right
      rw [← hqe]
      simp [hk]
    · left
      rw [← hqe]
      simp only [if_neg hk]
      exact hq
  · rcases List.mem_append.mp hp with h1 | h2
    · left
      exact h1
    · right
      simpa using h2

theorem dedupStep_entries (now : Nat) (m : List (String × Row)) (inv : Invitee)
    (h : ∀ p ∈ m, p.2.email = p.1 ∧ emailNormal p.1) :
    ∀ p ∈ dedupStep now m inv, p.2.email = p.1 ∧ emailNormal p.1 := by
  intro p hp
  unfold dedupStep at hp
  split at hp
  · exact h p hp
  · rename_i x e0 he0
    split at hp
    · exact h p hp
    · rename_i hne
      have hp2 : p ∈ (if ((match List.lookup (jsTrim (jsToLower e0)) m with
          | none => true
          | some c =>
            decide (c.created_at.getD 0 < inv.created_at.getD now)) = true) then
          mapSet m (jsTrim (jsToLower e0))
            ⟨jsTrim (jsToLower e0), inv.name.getD "", inv.created_at⟩
        else m) := hp
      split at hp2
      · rcases mem_mapSet _ _ _ p hp2 with hm | rfl
        · exact h p hm
        · exact ⟨rfl, ⟨e0, rfl⟩⟩
      · exact h p hp2

theorem dedupeInvitees_normal (now : Nat) (invs : List Invitee) :
    ∀ r ∈ dedupeInvitees now invs, emailNormal r.email := by
  intro r hr
  unfold dedupeInvitees at hr
  rw [(List.perm_insertionSort rowOrder
    ((invs.foldl (dedupStep now) []).map (·.2))).mem_iff, List.mem_map] at hr
  obtain ⟨p, hp, rfl⟩ := hr
  have hWF := foldl_preserve (dedupStep now)
    (fun m => ∀ p ∈ m, p.2.email = p.1 ∧ emailNormal p.1)
    (fun m inv hyp => dedupStep_entries now m inv hyp) invs [] (by simp)
  obtain ⟨heq, hn⟩ := hWF p hp
  rw [heq]
  exact hn

theorem orderEmail_normal (o : ShopOrder) (em : String)
    (h : orderEmail o = some em) : emailNormal em := by
  unfold orderEmail at h
  split at h
  · next e _ => exact ⟨e, (Option.some_inj.mp h).symm⟩
  · next =>
    split at h
    · next e _ => exact ⟨e, (Option.some_inj.mp h).symm⟩
    · next =>
      split at h
      · next e _ => exact ⟨e, (Option.some_inj.mp h).symm⟩
      · next => exact absurd h (by simp)

theorem extractStep_entries (m : List (String × CustomerRow)) (o : ShopOrder)
    (h : ∀ p ∈ m, p.2.email = p.1 ∧ emailNormal p.1) :
    ∀ p ∈ extractStep m o, p.2.email = p.1 ∧ emailNormal p.1 := by
  intro p hp
  unfold extractStep at hp
  split at hp
  · exact h p hp
  · rename_i x em hem
    have hp2 : p ∈ (if ((match List.lookup em m with
        | none => true
        | some ex => decide (ex.created_at.getD 0 < o.created_at.getD 0)) =
          true) then
        mapSet m em
          ⟨em,
           (if jsTrim (orderName o) = "" then emailLocal em
            else jsTrim (orderName o)),
           o.created_at, o.id,
           (match truthyStr o.order_number with
            | some n => some n
            | none => o.name),
           (truthyStr o.total_price).getD "0.00"⟩
      else m) := hp
    split at hp2
    · rcases mem_mapSet _ _ _ p hp2 with hm | rfl
      · exact h p hm
      · exact ⟨rfl, orderEmail_normal o em hem⟩
    · exact h p hp2

theorem extractEmailsFromOrders_normal (orders : List ShopOrder) :
    ∀ cr ∈ extractEmailsFromOrders orders, emailNormal cr.email := by
  intro cr hcr
  unfold extractEmailsFromOrders at hcr
  rw [(List.perm_insertionSort custOrder
    ((orders.foldl extractStep []).map (·.2))).mem_iff, List.mem_map] at hcr
  obtain ⟨p, hp, rfl⟩ := hcr
  have hWF := foldl_preserve extractStep
    (fun m => ∀ p ∈ m, p.2.email = p.1 ∧ emailNormal p.1)
    (fun m o hyp => extractStep_entries m o hyp) orders [] (by simp)
  obtain ⟨heq, hn⟩ := hWF p hp
  rw [heq]
  exact hn

theorem emailNormal_fixed {x : String} (h : emailNormal x) :
    jsToLower x = x ∧ jsTrim x = x := by
  obtain ⟨e0, rfl⟩ := h
  exact ⟨jsToLower_jsTrim_jsToLower e0, jsTrim_idem (jsToLower e0)⟩

theorem memKey_inj (l1 l2 e : String) (h : memKey l1 e = memKey l2 e) :
    l1 = l2 := by
  unfold memKey at h
  have hd := congrArg String.data h
  simp only [String.data_append] at hd
  have h1 := List.append_cancel_right hd
  have h2 := List.append_cancel_right h1
  have h3 := List.append_cancel_left h2
  cases l1
  cases l2
  exact congrArg String.mk h3

theorem memSet_other_list (mem : String → Bool) (l1 l2 e : String)
    (h : l1 ≠ l2) :
    memSet mem (memKey l1 e) (memKey l2 e) = mem (memKey l2 e) := by
  unfold memSet
  rw [if_neg (fun hk => h (memKey_inj l2 l1 e hk).symm)]

/-- C9: every candidate email flowing into the caches is the lowercased,
trimmed form of a provider email (and hence a fixed point of both
lowercasing and trimming) — for both the Calendly dedup step and the
Shopify order extraction; cache state is namespaced per list ID: a
persistent-cache write (or `ensureList` probe) under one list never
changes any entry of a different list, and the in-memory key
`synced:<listId>:<email>` determines the list ID, so a mem-cache write
under one list never affects the same email's key under another. -/
theorem c9_cache_key_invariant (now : Nat) (invitees : List Invitee)
    (orders : List ShopOrder) (fc : FileCache) (input : FileInput)
    (l1 l2 e1 e2 ts : String) (mem : String → Bool) (e : String) :
    (∀ r ∈ dedupeInvitees now invitees,
      (∃ e0, r.email = jsTrim (jsToLower e0)) ∧
      jsToLower r.email = r.email ∧ jsTrim r.email = r.email) ∧
    (∀ cr ∈ extractEmailsFromOrders orders,
      (∃ e0, cr.email = jsTrim (jsToLower e0)) ∧
      jsToLower cr.email = cr.email ∧ jsTrim cr.email = cr.email) ∧
    (fc.loaded = true → ts ≠ "" → l1 ≠ l2 →
      dataHas (fc.setEmail input l1 e1 ts).data l2 e2 = dataHas fc.data l2 e2 ∧
      dataHas (fc.hasEmail input l1 e1).1.data l2 e2 = dataHas fc.data l2 e2) ∧
    (memKey l1 e = memKey l2 e → l1 = l2) ∧
    (l1 ≠ l2 → memSet mem (memKey l1 e) (memKey l2 e) = mem (memKey l2 e)) := by
  refine ⟨?_, ?_, ?_, memKey_inj l1 l2 e, memSet_other_list mem l1 l2 e⟩
  · intro r hr
    have hn := dedupeInvitees_normal now invitees r hr
    exact ⟨hn, emailNormal_fixed hn⟩
  · intro cr hcr
    have hn := extractEmailsFromOrders_normal orders cr hcr
    exact ⟨hn, emailNormal_fixed hn⟩
  · intro hld hts hne
    constructor
    · rw [setEmail_dataHas fc input l1 e1 ts hld hts]
      rw [if_neg (fun hc => hne hc.1.symm)]
    · exact hasEmail_fst_dataHas fc input l1 e1 l2 e2 hld

/-- Witness for C9 at concrete inputs: a mixed-case, padded invitee email
and order email, a loaded cache receiving a write under list `L1`, and
the key pair for lists `L1`/`L2`. -/
theorem c9_cache_key_invariant_witness :
    (∀ r ∈ dedupeInvitees 7
        [Invitee.mk (some "  A@Example.COM ") (some "A") (some 3)],
      (∃ e0, r.email = jsTrim (jsToLower e0)) ∧
      jsToLower r.email = r.email ∧ jsTrim r.email = r.email) ∧
    (∀ cr ∈ extractEmailsFromOrders
        [ShopOrder.mk (some " B@X.com") none none (some 4) 1 none
          (some "#1") (some "5.00")],
      (∃ e0, cr.email = jsTrim (jsToLower e0)) ∧
      jsToLower cr.email = cr.email ∧ jsTrim cr.email = cr.email) ∧
    (dataHas ((FileCache.mk emptyCacheData true).setEmail ⟨false, none⟩
        "L1" "x@y.z" "t").data "L2" "x@y.z" =
      dataHas emptyCacheData "L2" "x@y.z" ∧
     dataHas ((FileCache.mk emptyCacheData true).hasEmail ⟨false, none⟩
        "L1" "x@y.z").1.data "L2" "x@y.z" =
      dataHas emptyCacheData "L2" "x@y.z") ∧
    (memKey "L1" "x@y.z" = memKey "L2" "x@y.z" → "L1" = "L2") ∧
    (memSet (fun _ => false) (memKey "L1" "x@y.z") (memKey "L2" "x@y.z") =
      (fun _ : String => false) (memKey "L2" "x@y.z")) := by
  have h := c9_cache_key_invariant 7
    [Invitee.mk (some "  A@Example.COM ") (some "A") (some 3)]
    [ShopOrder.mk (some " B@X.com") none none (some 4) 1 none
      (some "#1") (some "5.00")]
    (FileCache.mk emptyCacheData true) ⟨false, none⟩
    "L1" "L2" "x@y.z" "x@y.z" "t" (fun _ => false) "x@y.z"
  exact ⟨h.1, h.2.1, h.2.2.1 rfl (by decide) (by decide),
    h.2.2.2.1, h.2.2.2.2 (by decide)⟩

theorem lookup_cons_self {β : Type} (k : String) (b : β)
    (t : List (String × β)) : List.lookup k ((k, b) :: t) = some b := by
  simp [List.lookup]

theorem lookup_cons_ne {β : Type} (k k2 : String) (b : β)
    (t : List (String × β)) (h : k ≠ k2) :
    List.lookup k ((k2, b) :: t) = List.lookup k t := by
  have hb : (k == k2) = false := beq_eq_false_iff_ne.mpr h
  simp [List.lookup, hb]

theorem lookup_map_replace {β : Type} (k : String) (v : β) :
    ∀ m : List (String × β), (List.lookup k m).isSome = true →
      List.lookup k (m.map (fun p => if p.1 = k then (k, v) else p)) = some v
  | [], hs => by simp at hs
  | (pk, pv) :: t, hs => by
    by_cases hp : pk = k
    · simp only [List.map_cons]
      rw [show (if ((pk, pv) : String × β).1 = k then (k, v) else (pk, pv)) =
        (k, v) from by simp [hp]]
      exact lookup_cons_self k v _
    · simp only [List.map_cons]
      rw [show (if ((pk, pv) : String × β).1 = k then (k, v) else (pk, pv)) =
        (pk, pv) from by simp [hp]]
      rw [lookup_cons_ne k pk pv _ (fun hkk => hp hkk.symm)]
      apply lookup_map_replace k v t
      rwa [lookup_cons_ne k pk pv t (fun hkk => hp hkk.symm)] at hs

theorem lookup_append_single {β : Type} (k : String) (v : β) :
    ∀ m : List (String × β), List.lookup k m = none →
      List.lookup k (m ++ [(k, v)]) = some v
  | [], _ => lookup_cons_self k v []
  | (pk, pv) :: t, hnone => by
    by_cases hp : pk = k
    · subst hp
      rw [lookup_cons_self] at hnone
      exact absurd hnone (by simp)
    · rw [List.cons_append, lookup_cons_ne k pk pv _ (fun hkk => hp hkk.symm)]
      apply lookup_append_single k v t
      rwa [lookup_cons_ne k pk pv t (fun hkk => hp hkk.symm)] at hnone

theorem lookup_mapSet_self {β : Type} (m : List (String × β)) (k : String)
    (v : β) : List.lookup k (mapSet m k v) = some v := by
  unfold mapSet
  by_cases hs : (List.lookup k m).isSome
  · rw [if_pos hs]
    exact lookup_map_replace k v m hs
  · rw [if_neg hs]
    apply lookup_append_single
    cases h : List.lookup k m with
    | none => rfl
    | some b =>
      rw [h] at hs
      simp at hs

theorem lookup_map_replace_ne {β : Type} (k k2 : String) (v : β)
    (hk : k2 ≠ k) :
    ∀ m : List (String × β),
      List.lookup k2 (m.map (fun p => if p.1 = k then (k, v) else p)) =
        List.lookup k2 m
  | [] => rfl
  | (pk, pv) :: t => by
    by_cases hp : pk = k
    · simp only [List.map_cons]
      rw [show (if ((pk, pv) : String × β).1 = k then (k, v) else (pk, pv)) =
        (k, v) from by simp [hp]]
      rw [lookup_cons_ne k2 k v _ hk,
        lookup_cons_ne k2 pk pv t (by rw [hp]; exact hk)]
      exact lookup_map_replace_ne k k2 v hk t
    · simp only [List.map_cons]
      rw [show (if ((pk, pv) : String × β).1 = k then (k, v) else (pk, pv)) =
        (pk, pv) from by simp [hp]]
      by_cases hq : k2 = pk
      · subst hq
        rw [lookup_cons_self, lookup_cons_self]
      · rw [lookup_cons_ne k2 pk pv _ hq, lookup_cons_ne k2 pk pv t hq]
        exact lookup_map_replace_ne k k2 v hk t

theorem lookup_append_single_ne {β : Type} (k k2 : String) (v : β)
    (hk : k2 ≠ k) :
    ∀ m : List (String × β),
      List.lookup k2 (m ++ [(k, v)]) = List.lookup k2 m
  | [] => by
    rw [List.nil_append, lookup_cons_ne k2 k v [] hk]
  | (pk, pv) :: t => by
    by_cases hq : k2 = pk
    · subst hq
      rw [List.cons_append, lookup_cons_self, lookup_cons_self]
    · rw [List.cons_append, lookup_cons_ne k2 pk pv _ hq,
        lookup_cons_ne k2 pk pv t hq]
      exact lookup_append_single_ne k k2 v hk t

theorem lookup_mapSet_ne {β : Type} (m : List (String × β)) (k k2 : String)
    (v : β) (hk : k2 ≠ k) :
    List.lookup k2 (mapSet m k v) = List.lookup k2 m := by
  unfold mapSet
  split
  · exact lookup_map_replace_ne k k2 v hk m
  · exact lookup_append_single_ne k k2 v hk m

theorem not_mem_keys_of_lookup_none {β : Type} (k : String) :
    ∀ m : List (String × β), List.lookup k m = none → k ∉ m.map (·.1)
  | [], _ => by simp
  | (pk, pv) :: t, h => by
    by_cases hp : k = pk
    · subst hp
      rw [lookup_cons_self] at h
      simp at h
    · rw [lookup_cons_ne k pk pv t hp] at h
      simp only [List.map_cons, List.mem_cons]
      rintro (hc | hc)
      · exact hp hc
      · exact not_mem_keys_of_lookup_none k t h hc

theorem mapSet_keys_nodup {β : Type} (m : List (String × β)) (k : String)
    (v : β) (h : (m.map (·.1)).Nodup) :
    ((mapSet m k v).map (·.1)).Nodup := by
  unfold mapSet
  split
  · rw [List.map_map]
    have heq : m.map ((·.1) ∘ fun p => if p.1 = k then (k, v) else p) =
        m.map (·.1) := by
      apply List.map_congr_left
      intro p _
      by_cases hp : p.1 = k <;> simp [Function.comp, hp]
    rw [heq]
    exact h
  · rename_i hs
    rw [List.map_append]
    rw [List.nodup_append]
    refine ⟨h, by simp, ?_⟩
    intro a ha hb
    have hnone : List.lookup k m = none := by
      cases hx : List.lookup k m with
      | none => rfl
      | some b =>
        rw [hx] at hs
        simp at hs
    have hk : a = k := by simpa using hb
    subst hk
    exact not_mem_keys_of_lookup_none a m hnone ha

theorem dedupStep_keys_nodup (now : Nat) (m : List (String × Row))
    (inv : Invitee) (h : (m.map (·.1)).Nodup) :
    ((dedupStep now m inv).map (·.1)).Nodup := by
  unfold dedupStep
  split
  · exact h
  · rename_i x e0 he0
    split
    · exact h
    · show ((if ((match List.lookup (jsTrim (jsToLower e0)) m with
          | none => true
          | some c =>
            decide (c.created_at.getD 0 < inv.created_at.getD now)) = true) then
          mapSet m (jsTrim (jsToLower e0))
            ⟨jsTrim (jsToLower e0), inv.name.getD "", inv.created_at⟩
        else m).map (·.1)).Nodup
      split
      · exact mapSet_keys_nodup m _ _ h
      · exact h

theorem lookup_of_mem_keysNodup {β : Type} :
    ∀ m : List (String × β), (m.map (·.1)).Nodup →
      ∀ p ∈ m, List.lookup p.1 m = some p.2
  | [], _, p, hp => absurd hp (by simp)
  | (pk, pv) :: t, hnd, p, hp => by
    rcases List.mem_cons.mp hp with rfl | hp2
    · exact lookup_cons_self pk pv t
    · have hnd' : ((((pk, pv) : String × β)).1 :: t.map (·.1)).Nodup := by
        rw [List.map_cons] at hnd
        exact hnd
      have hnd2 := List.nodup_cons.mp hnd'
      have hne : p.1 ≠ pk := by
        intro hEq
        have hmem : p.1 ∈ t.map (·.1) := List.mem_map.mpr ⟨p, hp2, rfl⟩
        rw [hEq] at hmem
        exact hnd2.1 hmem
      rw [lookup_cons_ne p.1 pk pv t hne]
      exact lookup_of_mem_keysNodup t hnd2.2 p hp2

theorem dedup_fold_mono (now : Nat) :
    ∀ (invs : List Invitee) (m : List (String × Row)) (k : String) (v0 : Row),
      (∀ i ∈ invs, (i.created_at).isSome = true) →
      List.lookup k m = some v0 →
      ∃ v, List.lookup k (invs.foldl (dedupStep now) m) = some v ∧
        v0.created_at.getD 0 ≤ v.created_at.getD 0
  | [], m, k, v0, _, h => ⟨v0, h, le_rfl⟩
  | inv :: rest, m, k, v0, hall, h => by
    have hrest : ∀ i ∈ rest, (i.created_at).isSome = true :=
      fun i hi => hall i (by simp [hi])
    have hstep : ∃ v1, List.lookup k (dedupStep now m inv) = some v1 ∧
        v0.created_at.getD 0 ≤ v1.created_at.getD 0 := by
      unfold dedupStep
      cases hie : inv.email with
      | none => exact ⟨v0, h, le_rfl⟩
      | some e0 =>
        show ∃ v1, List.lookup k
          (if e0 = "" then m
           else
            (if ((match List.lookup (jsTrim (jsToLower e0)) m with
                | none => true
                | some c =>
                  decide (c.created_at.getD 0 < inv.created_at.getD now)) =
                true) then
              mapSet m (jsTrim (jsToLower e0))
                ⟨jsTrim (jsToLower e0), inv.name.getD "", inv.created_at⟩
            else m)) = some v1 ∧
          v0.created_at.getD 0 ≤ v1.created_at.getD 0
        by_cases h0 : e0 = ""
        · rw [if_pos h0]
          exact ⟨v0, h, le_rfl⟩
        · rw [if_neg h0]
          by_cases hk : k = jsTrim (jsToLower e0)
          · subst hk
            rw [h]
            split
            · rename_i hcond
              refine ⟨_, lookup_mapSet_self m _ _, ?_⟩
              have hsome : (inv.created_at).isSome = true := hall inv (by simp)
              obtain ⟨t, ht⟩ := Option.isSome_iff_exists.mp hsome
              rw [ht] at hcond ⊢
              simp at hcond ⊢
              omega
            · exact ⟨v0, h, le_rfl⟩
          · split
            · rw [lookup_mapSet_ne m _ k _ hk]
              exact ⟨v0, h, le_rfl⟩
            · exact ⟨v0, h, le_rfl⟩
    obtain ⟨v1, h1, hle1⟩ := hstep
    obtain ⟨v, hv, hlev⟩ :=
      dedup_fold_mono now rest (dedupStep now m inv) k v1 hrest h1
    exact ⟨v, hv, le_trans hle1 hlev⟩

theorem dedup_fold_max (now : Nat) :
    ∀ (invs : List Invitee) (m : List (String × Row)),
      (∀ i ∈ invs, (i.created_at).isSome = true) →
      ∀ inv ∈ invs, ∀ e0, inv.email = some e0 → e0 ≠ "" →
      ∀ v, List.lookup (jsTrim (jsToLower e0))
          (invs.foldl (dedupStep now) m) = some v →
        inv.created_at.getD 0 ≤ v.created_at.getD 0
  | [], _, _, inv, hmem, _, _, _, _, _ => absurd hmem (by simp)
  | inv1 :: rest, m, hall, inv, hmem, e0, hie, h0, v, hv => by
    have hrest : ∀ i ∈ rest, (i.created_at).isSome = true :=
      fun i hi => hall i (by simp [hi])
    rcases List.mem_cons.mp hmem with rfl | hmem2
    · have hsome : (inv.created_at).isSome = true := hall inv (by simp)
      obtain ⟨t, ht⟩ := Option.isSome_iff_exists.mp hsome
      have hstep : ∃ v1, List.lookup (jsTrim (jsToLower e0))
          (dedupStep now m inv) = some v1 ∧ t ≤ v1.created_at.getD 0 := by
        unfold dedupStep
        rw [hie]
        show ∃ v1, List.lookup (jsTrim (jsToLower e0))
          (if e0 = "" then m
           else
            (if ((match List.lookup (jsTrim (jsToLower e0)) m with
                | none => true
                | some c =>
                  decide (c.created_at.getD 0 < inv.created_at.getD now)) =
                true) then
              mapSet m (jsTrim (jsToLower e0))
                ⟨jsTrim (jsToLower e0), inv.name.getD "", inv.created_at⟩
            else m)) = some v1 ∧ t ≤ v1.created_at.getD 0
        rw [if_neg h0]
        cases hcur : List.lookup (jsTrim (jsToLower e0)) m with
        | none =>
          rw [if_pos rfl]
          refine ⟨_, lookup_mapSet_self m _ _, ?_⟩
          simp [ht]
        | some c =>
          split
          · refine ⟨_, lookup_mapSet_self m _ _, ?_⟩
            simp [ht]
          · rename_i hcond
            refine ⟨c, hcur, ?_⟩
            rw [ht] at hcond
            simp at hcond
            omega
      obtain ⟨v1, h1, hle1⟩ := hstep
      obtain ⟨v2, hv2, hlev⟩ :=
        dedup_fold_mono now rest (dedupStep now m inv) _ v1 hrest h1
      have hfold : (inv :: rest).foldl (dedupStep now) m =
          rest.foldl (dedupStep now) (dedupStep now m inv) := rfl
      rw [hfold, hv2] at hv
      have hvv : v2 = v := by
        injection hv
      subst hvv
      rw [ht]
      show t ≤ v2.created_at.getD 0
      exact le_trans hle1 hlev
    · have hfold : (inv1 :: rest).foldl (dedupStep now) m =
          rest.foldl (dedupStep now) (dedupStep now m inv1) := rfl
      rw [hfold] at hv
      exact dedup_fold_max now rest (dedupStep now m inv1) hrest inv hmem2
        e0 hie h0 v hv

theorem dedup_fold_entries (now : Nat) (invs : List Invitee) :
    ∀ p ∈ invs.foldl (dedupStep now) [], p.2.email = p.1 ∧ emailNormal p.1 :=
  foldl_preserve (dedupStep now)
    (fun m => ∀ p ∈ m, p.2.email = p.1 ∧ emailNormal p.1)
    (fun m inv hyp => dedupStep_entries now m inv hyp) invs [] (by simp)

theorem dedup_fold_keysNodup (now : Nat) (invs : List Invitee) :
    ((invs.foldl (dedupStep now) []).map (·.1)).Nodup :=
  foldl_preserve (dedupStep now) (fun m => (m.map (·.1)).Nodup)
    (fun m inv hyp => dedupStep_keys_nodup now m inv hyp) invs [] (by simp)

theorem dedupeInvitees_emails_nodup (now : Nat) (invs : List Invitee) :
    ((dedupeInvitees now invs).map Row.email).Nodup := by
  unfold dedupeInvitees
  have hperm := (List.perm_insertionSort rowOrder
    ((invs.foldl (dedupStep now) []).map (·.2))).map Row.email
  rw [hperm.nodup_iff, List.map_map]
  have heq : (invs.foldl (dedupStep now) []).map (Row.email ∘ (·.2)) =
      (invs.foldl (dedupStep now) []).map (·.1) := by
    apply List.map_congr_left
    intro p hp
    exact (dedup_fold_entries now invs p hp).1
  rw [heq]
  exact dedup_fold_keysNodup now invs

theorem dedupeInvitees_max (now : Nat) (invs : List Invitee)
    (hall : ∀ i ∈ invs, (i.created_at).isSome = true) :
    ∀ r ∈ dedupeInvitees now invs, ∀ inv ∈ invs, ∀ e0,
      inv.email = some e0 → e0 ≠ "" → jsTrim (jsToLower e0) = r.email →
      inv.created_at.getD 0 ≤ r.created_at.getD 0 := by
  intro r hr inv hinv e0 hie h0 hkey
  unfold dedupeInvitees at hr
  rw [(List.perm_insertionSort rowOrder
    ((invs.foldl (dedupStep now) []).map (·.2))).mem_iff, List.mem_map] at hr
  obtain ⟨p, hp, rfl⟩ := hr
  have hk1 : p.2.email = p.1 := (dedup_fold_entries now invs p hp).1
  have hlk : List.lookup p.1 (invs.foldl (dedupStep now) []) = some p.2 :=
    lookup_of_mem_keysNodup _ (dedup_fold_keysNodup now invs) p hp
  have hkey2 : jsTrim (jsToLower e0) = p.1 := hkey.trans hk1
  rw [← hkey2] at hlk
  exact dedup_fold_max now invs [] hall inv hinv e0 hie h0 p.2 hlk

/-- C4: the dedup step of list_sendy_brands.js keys candidates by the
lowercased, trimmed email, so the output has pairwise-distinct emails,
and (whenever every invitee carries a `created_at`) the retained record
for an email has a `created_at` at least that of every source invitee
sharing that email — i.e. the most recent one is kept; concretely, two
invitees sharing `a@example.com` with epoch values for
2025-01-01T00:00:00Z and 2025-01-02T00:00:00Z dedupe to the single
second record, and when that record's remote status is `Not in list`, a
run issues exactly one subscribe call, for `a@example.com`. -/
theorem c4_dedup_most_recent_single_call (now : Nat) (invs : List Invitee)
    (hall : ∀ i ∈ invs, (i.created_at).isSome = true) :
    ((dedupeInvitees now invs).map Row.email).Nodup ∧
    (∀ r ∈ dedupeInvitees now invs, ∀ inv ∈ invs, ∀ e0,
      inv.email = some e0 → e0 ≠ "" → jsTrim (jsToLower e0) = r.email →
      inv.created_at.getD 0 ≤ r.created_at.getD 0) ∧
    dedupeInvitees 0
      [⟨some "a@example.com", some "A", some 1735689600000⟩,
       ⟨some "a@example.com", some "B", some 1735776000000⟩] =
      [⟨"a@example.com", "B", some 1735776000000⟩] ∧
    (runSync
      ⟨⟨false, false, false, false, false, "L", 20⟩,
       dedupeInvitees 0
         [⟨some "a@example.com", some "A", some 1735689600000⟩,
          ⟨some "a@example.com", some "B", some 1735776000000⟩],
       (fun _ => Except.ok "Not in list"),
       (fun _ _ => ⟨true, "1", some 200⟩), "T"⟩
      (fun _ => false) ⟨false, none⟩).calls = ["a@example.com"] :=
  ⟨dedupeInvitees_emails_nodup now invs, dedupeInvitees_max now invs hall,
   by decide, by decide⟩

theorem c4_dedup_most_recent_single_call_witness :
    ((dedupeInvitees 0
        [⟨some "a@example.com", some "A", some 1735689600000⟩,
         ⟨some "a@example.com", some "B", some 1735776000000⟩]).map
       Row.email).Nodup ∧
    (∀ r ∈ dedupeInvitees 0
        [⟨some "a@example.com", some "A", some 1735689600000⟩,
         ⟨some "a@example.com", some "B", some 1735776000000⟩],
      ∀ inv ∈ ([⟨some "a@example.com", some "A", some 1735689600000⟩,
         ⟨some "a@example.com", some "B", some 1735776000000⟩] :
           List Invitee), ∀ e0,
      inv.email = some e0 → e0 ≠ "" → jsTrim (jsToLower e0) = r.email →
      inv.created_at.getD 0 ≤ r.created_at.getD 0) ∧
    dedupeInvitees 0
      [⟨some "a@example.com", some "A", some 1735689600000⟩,
       ⟨some "a@example.com", some "B", some 1735776000000⟩] =
      [⟨"a@example.com", "B", some 1735776000000⟩] ∧
    (runSync
      ⟨⟨false, false, false, false, false, "L", 20⟩,
       dedupeInvitees 0
         [⟨some "a@example.com", some "A", some 1735689600000⟩,
          ⟨some "a@example.com", some "B", some 1735776000000⟩],
       (fun _ => Except.ok "Not in list"),
       (fun _ _ => ⟨true, "1", some 200⟩), "T"⟩
      (fun _ => false) ⟨false, none⟩).calls = ["a@example.com"] :=
  c4_dedup_most_recent_single_call 0
    [⟨some "a@example.com", some "A", some 1735689600000⟩,
     ⟨some "a@example.com", some "B", some 1735776000000⟩]
    (by decide)
